import Mathlib

/-!
Verification development for the SEQ_TLS_AF_work tag-list pipeline.

The Python sources are shallowly embedded as Lean definitions:

* 030_AssetsAttributesExtraction.py : identifier decomposition
  (parse_name_to_asset_attribute and its regex tokenization).
* 010_TreeTagList.py : template inheritance resolution
  (get_all_attributes), template priority sorting, template matching
  (match_assets_to_templates), the controller-to-sensor re-parenting
  scan (find_corresponding_sensor) and the hierarchy assembly
  (build_af_import).
* 002_Template01.py / 020_TemplateExtraction.py : per-asset-type
  attribute coverage ranking (attr_percent) and pairwise Jaccard
  similarity of common attribute sets.

Python strings are modelled as List Char (for the character-level
decomposition and scanning code) or String (for the hierarchy code).
Percentages are modelled in ℚ; for the thresholds used here (strict
comparison against 70 with population sizes in the thousands) the
float computations in the sources decide exactly as the rational ones.
Pandas sort_values with ascending := False is modelled as a stable
ascending sort followed by a reversal, which is what pandas performs
(nargsort reverses the ascending argsort; numpy introsort is stable on
the small per-type attribute groups that occur here).
-/

/-! ## 030_AssetsAttributesExtraction.py : identifier decomposer -/

/-- One step of the left-to-right scan of re.findall(r'_+[^_]+|[^_]+', s).
pending holds the characters of the token currently being built; inRun
is true once pending contains at least one non-underscore character
(i.e. the pending token is already a complete match that may still be
extended by further non-underscore characters). At the end of the
string a pending token is kept only when inRun is true: a trailing run
of underscores matches neither regex alternative and is dropped. -/
def tokenizeAux (pending : List Char) (inRun : Bool) : List Char → List (List Char)
  | [] => if inRun then [pending] else []
  | c :: cs =>
    if c == '_' then
      if inRun then pending :: tokenizeAux [c] false cs
      else tokenizeAux (pending ++ [c]) false cs
    else tokenizeAux (pending ++ [c]) true cs

/-- Tokenization of the suffix, mirroring
re.findall(r'_+[^_]+|[^_]+', core): a token is either a maximal run of
non-underscore characters, or a run of underscores glued to the
non-underscore run that follows it. -/
def tokenize (s : List Char) : List (List Char) :=
  tokenizeAux [] false s

/-- is_all_digits: token is non-empty and consists solely of digits. -/
def isAllDigits (t : List Char) : Bool :=
  !t.isEmpty && t.all (fun ch => ch.isDigit)

/-- t.lstrip applied to underscores, as used on middle tokens. -/
def lstripUnderscores (t : List Char) : List Char :=
  t.dropWhile (fun ch => ch == '_')

/-- Routing test for a middle token: digits-only (after stripping the
leading separator run) goes to the asset, otherwise to the attribute. -/
def middleToAsset (t : List Char) : Bool :=
  isAllDigits (lstripUnderscores t)

/-- parse_name_to_asset_attribute from 030_AssetsAttributesExtraction.py:
drop the first 4 characters, tokenize, route the leftmost token to the
asset, the rightmost token to the attribute, middle tokens by content,
and join each bucket without inserting separators. -/
def parse_name_to_asset_attribute (name : List Char) : List Char × List Char :=
  if name.length < 4 then ([], [])
  else
    let core := name.drop 4
    let tokens := tokenize core
    if tokens.isEmpty then ([], [])
    else
      let leftmost := tokens.headD []
      let rightmost := tokens.getLastD []
      let middle := (tokens.drop 1).dropLast
      let assetParts := leftmost :: middle.filter middleToAsset
      let attrParts := (middle.filter (fun t => !middleToAsset t)) ++ [rightmost]
      ((assetParts.filter (fun p => !p.isEmpty)).flatten,
       (attrParts.filter (fun p => !p.isEmpty)).flatten)

/-- Checks that the string pair (a, b) arises by routing each token of
the given token list to exactly one of the two sides, preserving the
original token order inside each side. -/
def splitsInto : List (List Char) → List Char → List Char → Bool
  | [], a, b => a.isEmpty && b.isEmpty
  | t :: ts, a, b =>
    (a.take t.length == t && splitsInto ts (a.drop t.length) b)
      || (b.take t.length == t && splitsInto ts a (b.drop t.length))

/-! ## 002_Template01.py / 020_TemplateExtraction.py : coverage ranking
and similarity -/

/-- Stable insertion of one (attribute, percentage) pair into a list
that is ascending by percentage; a pair with equal percentage stays
before the later elements it ties with, matching a stable ascending
sort. -/
def insertPercentAsc (x : String × ℚ) : List (String × ℚ) → List (String × ℚ)
  | [] => [x]
  | y :: ys => if x.2 ≤ y.2 then x :: y :: ys else y :: insertPercentAsc x ys

/-- Stable ascending sort by percentage value. -/
def sortPercentAsc (l : List (String × ℚ)) : List (String × ℚ) :=
  l.foldr insertPercentAsc []

/-- attr_percent = (attr_counts / asset_count * 100).sort_values(ascending=False):
attrCounts is the nunique Series indexed by attribute name in ascending
name order (the pandas groupby key order); sort_values with
ascending=False performs the ascending argsort and reverses it. -/
def attr_percent (attrCounts : List (String × ℕ)) (assetCount : ℕ) : List (String × ℚ) :=
  let percents := attrCounts.map (fun p => (p.1, (p.2 : ℚ) / (assetCount : ℚ) * 100))
  (sortPercentAsc percents).reverse

/-- filtered = attr_percent[attr_percent > 70] : the coverage ranking
retained for an asset type, in the order produced by attr_percent. -/
def coverageRanking (attrCounts : List (String × ℕ)) (assetCount : ℕ) : List (String × ℚ) :=
  (attr_percent attrCounts assetCount).filter (fun p => decide ((70 : ℚ) < p.2))

/-- Section 3 of 002_Template01.py / 020_TemplateExtraction.py: the
similarity printed for one pair of common attribute sets, or none when
the guards reject the pair. -/
def similarityReport (set1 set2 : Finset String) : Option ℚ :=
  if set1.Nonempty ∧ set2.Nonempty then
    if (set1 ∪ set2).Nonempty then
      if 70 < ((set1 ∩ set2).card : ℚ) / ((set1 ∪ set2).card : ℚ) * 100 then
        some (((set1 ∩ set2).card : ℚ) / ((set1 ∪ set2).card : ℚ) * 100)
      else none
    else none
  else none

/-! ## 010_TreeTagList.py : template loading, inheritance resolution,
matching -/

/-- One attribute descriptor of an AF template: the attribute name and
the tag-attribute string derived from its AttributeConfigString. -/
structure AttrInfo where
  attrName : String
  tag : String
deriving DecidableEq, Repr

/-- One raw element-template definition: base-template reference and
directly declared attributes. -/
structure TemplateDef where
  base : String
  direct : List AttrInfo
deriving DecidableEq, Repr

/-- Python dict lookup on an association list (first binding wins;
a dict never holds duplicate keys). -/
def dictFind {α : Type} (m : List (String × α)) (k : String) : Option α :=
  (m.find? (fun p => p.1 == k)).map (fun p => p.2)

/-- Python dict assignment d[k] = v: overwrite in place when the key
exists, append otherwise. -/
def dictInsert {α : Type} (m : List (String × α)) (k : String) (v : α) : List (String × α) :=
  if (m.find? (fun p => p.1 == k)).isSome then
    m.map (fun p => if p.1 == k then (k, v) else p)
  else m ++ [(k, v)]

/-- get_all_attributes from 010_TreeTagList.py: direct attributes first,
then inherited attributes from the base chain, dropping inherited
attributes whose name collides with a direct one; a name already in
visited ends the walk, and a base that is empty or absent from the
definitions map contributes nothing. -/
def get_all_attributes (defs : List (String × TemplateDef)) (visited : List String)
    (tname : String) : List AttrInfo :=
  if tname ∈ visited then []
  else
    match hf : dictFind defs tname with
    | none => []
    | some t =>
      let directNames := t.direct.map (fun a => a.attrName)
      if t.base ≠ "" ∧ (dictFind defs t.base).isSome then
        let inherited := get_all_attributes defs (tname :: visited) t.base
        t.direct ++ inherited.filter (fun a => !directNames.contains a.attrName)
      else t.direct
termination_by ((defs.map Prod.fst).toFinset \ visited.toFinset).card
decreasing_by
  have hmem : tname ∈ (defs.map Prod.fst).toFinset := by
    rcases Option.map_eq_some'.mp hf with ⟨p, hp, hp2⟩
    have hpm := List.mem_of_find?_eq_some hp
    have hpk : p.1 = tname := by
      have := List.find?_some hp
      simpa using this
    simp only [List.mem_toFinset, List.mem_map]
    exact ⟨p, hpm, hpk⟩
  have hnv : tname ∉ visited.toFinset := by
    simpa using (by assumption : ¬ tname ∈ visited)
  have hsub : (defs.map Prod.fst).toFinset \ (tname :: visited).toFinset
      ⊆ (defs.map Prod.fst).toFinset \ visited.toFinset := by
    intro x hx
    simp only [List.toFinset_cons, Finset.mem_sdiff, Finset.mem_insert] at hx ⊢
    exact ⟨hx.1, fun h => hx.2 (Or.inr h)⟩
  apply Finset.card_lt_card
  rw [Finset.ssubset_iff_of_subset hsub]
  refine ⟨tname, ?_, ?_⟩
  · exact Finset.mem_sdiff.mpr ⟨hmem, hnv⟩
  · simp [List.toFinset_cons]

/-- The resolved form of one template kept for matching: its flattened
attribute list (attribute_count is its length). -/
structure TemplateInfo where
  allAttrs : List AttrInfo
deriving DecidableEq, Repr

/-- attribute_count of a resolved template. -/
def attributeCount (t : TemplateInfo) : ℕ := t.allAttrs.length

/-- Stable insertion for sorting templates by attribute count
descending; python sorted(..., reverse=True) is stable, so a template
keeps its position relative to templates of equal count. -/
def insertCountDesc (x : String × TemplateInfo) :
    List (String × TemplateInfo) → List (String × TemplateInfo)
  | [] => [x]
  | y :: ys =>
    if attributeCount y.2 ≤ attributeCount x.2 then x :: y :: ys
    else y :: insertCountDesc x ys

/-- sorted(templates.items(), key=attribute_count, reverse=True). -/
def sortTemplatesByCount (l : List (String × TemplateInfo)) : List (String × TemplateInfo) :=
  l.foldr insertCountDesc []

/-- load_af_templates, restricted to its algorithmic part: the raw
definitions (parsed from the external template workbook) are resolved
through get_all_attributes and ordered by attribute count descending. -/
def load_af_templates (defs : List (String × TemplateDef)) : List (String × TemplateInfo) :=
  sortTemplatesByCount (defs.map (fun p => (p.1, ⟨get_all_attributes defs [] p.1⟩)))

/-- required_attributes of a template: the non-empty tag_attribute
values of its resolved attributes (a python set; only membership and
emptiness of it are ever used). -/
def requiredAttributes (t : TemplateInfo) : List String :=
  (t.allAttrs.map (fun a => a.tag)).filter (fun s => s != "")

/-- The inner loop of match_assets_to_templates for one template:
every asset not yet matched whose attribute set contains all required
attributes is assigned this template. -/
def matchTemplateStep (tname : String) (req : List String)
    (assets : List (String × List String)) (mapping : List (String × String)) :
    List (String × String) :=
  assets.foldl (fun m a =>
    if (dictFind m a.1).isNone && req.all (fun r => a.2.contains r) then
      m ++ [(a.1, tname)]
    else m) mapping

/-- The outer loop of match_assets_to_templates: templates are tried
in the given order; a template with no valid required attribute is
skipped entirely. -/
def matchTemplatesLoop (assets : List (String × List String)) :
    List (String × TemplateInfo) → List (String × String) → List (String × String)
  | [], mapping => mapping
  | tp :: rest, mapping =>
    if (requiredAttributes tp.2).isEmpty then matchTemplatesLoop assets rest mapping
    else matchTemplatesLoop assets rest
      (matchTemplateStep tp.1 (requiredAttributes tp.2) assets mapping)

/-- match_assets_to_templates from 010_TreeTagList.py, starting from
an empty asset-to-template mapping. -/
def match_assets_to_templates (templates : List (String × TemplateInfo))
    (assets : List (String × List String)) : List (String × String) :=
  matchTemplatesLoop assets templates []

/-! ## 010_TreeTagList.py : sensor scan and hierarchy assembly -/

/-- The scan inside find_corresponding_sensor: walk the characters of
the controller name left to right (pre holds the characters already
passed); at a position holding a C, substitute T at that position only
and test membership among the sensor names; the first hit wins. -/
def findSensorScan (sensors : List (List Char)) (pre : List Char) :
    List Char → Option (List Char)
  | [] => none
  | c :: rest =>
    let candidate := pre ++ 'T' :: rest
    if c == 'C' && sensors.contains candidate then some candidate
    else findSensorScan sensors (pre ++ [c]) rest

/-- find_corresponding_sensor from 010_TreeTagList.py: the positional
scan runs only for controller names of length at least 3. -/
def find_corresponding_sensor (sensors : List (List Char)) (controllerName : List Char) :
    Option (List Char) :=
  if 3 ≤ controllerName.length then findSensorScan sensors [] controllerName else none

/-- One input row of the TLS sheet after the rows without a P&ID Asset
have been removed (that removal, like all spreadsheet I/O, happens in
the external loader). -/
structure InRow where
  level2 : String
  level3 : String
  pidAsset : String
  assetName : String
  scadaAsset : Option String
deriving DecidableEq, Repr

/-- python str.strip(). -/
def pyStrip (s : String) : String :=
  ⟨((s.data.dropWhile (fun c => c.isWhitespace)).reverse.dropWhile
      (fun c => c.isWhitespace)).reverse⟩

/-- python str.lower(). -/
def pyLower (s : String) : String :=
  ⟨s.data.map (fun c => c.toLower)⟩

/-- The astype(str).str.strip() normalisation applied to the four
hierarchy columns. -/
def normalizeRow (r : InRow) : InRow :=
  { r with
    level2 := pyStrip r.level2
    level3 := pyStrip r.level3
    pidAsset := pyStrip r.pidAsset
    assetName := pyStrip r.assetName }

/-- Strict code-point lexicographic comparison of character lists,
matching python string comparison. -/
def charListLt : List Char → List Char → Bool
  | [], [] => false
  | [], _ :: _ => true
  | _ :: _, [] => false
  | a :: as, b :: bs => if a < b then true else if b < a then false else charListLt as bs

/-- Non-strict row comparison by the sort key (Level 2, Level 3,
P&ID Asset). -/
def rowLe (a b : InRow) : Bool :=
  if charListLt a.level2.data b.level2.data then true
  else if charListLt b.level2.data a.level2.data then false
  else if charListLt a.level3.data b.level3.data then true
  else if charListLt b.level3.data a.level3.data then false
  else if charListLt a.pidAsset.data b.pidAsset.data then true
  else if charListLt b.pidAsset.data a.pidAsset.data then false
  else true

/-- Stable insertion for df.sort_values(by=[Level 2, Level 3, P&ID Asset]). -/
def insertRowAsc (x : InRow) : List InRow → List InRow
  | [] => [x]
  | y :: ys => if rowLe x y then x :: y :: ys else y :: insertRowAsc x ys

/-- Stable sort of the rows by the dedup key. -/
def sortRows (l : List InRow) : List InRow := l.foldr insertRowAsc []

/-- Equality of the dedup key (Level 2, Level 3, P&ID Asset). -/
def sameKey (a b : InRow) : Bool :=
  a.level2 == b.level2 && a.level3 == b.level3 && a.pidAsset == b.pidAsset

/-- Collapse a key-sorted list to the first row of each key group,
mirroring groupby(dedup_cols).agg(first). -/
def collapseAux (prev : InRow) : List InRow → List InRow
  | [] => []
  | y :: ys => if sameKey prev y then collapseAux prev ys else y :: collapseAux y ys

/-- Deduplication by (Level 2, Level 3, P&ID Asset): sort by the key,
keep the first row of each key group. -/
def dedupRows (rows : List InRow) : List InRow :=
  match sortRows rows with
  | [] => []
  | x :: xs => x :: collapseAux x xs

/-- The SCADA Asset mapping built before deduplication: last
assignment wins, rows without a SCADA Asset value contribute nothing. -/
def scadaMappingOf (rows : List InRow) : List (String × String) :=
  rows.foldl (fun m r =>
    match r.scadaAsset with
    | some v => dictInsert m (pyStrip r.pidAsset) (pyStrip v)
    | none => m) []

/-- A deduplicated row carrying its Template column. -/
structure Row2 where
  level2 : String
  level3 : String
  pidAsset : String
  assetName : String
  template : String
deriving DecidableEq, Repr

/-- df.map(asset_template_mapping).fillna(""): attach the matched
template name, or the empty string, to every deduplicated row. -/
def assignTemplates (mapping : List (String × String)) (rows : List InRow) : List Row2 :=
  rows.map (fun r =>
    ⟨r.level2, r.level3, r.pidAsset, r.assetName, (dictFind mapping r.pidAsset).getD ""⟩)

/-- The template name that marks sensor-class assets. -/
def sensorTemplateName : String := "TLS.Analog.Sensor.001"

/-- The template name that marks controller-class assets. -/
def controllerTemplateName : String := "TLS.PID.Controller.001"

/-- The three asset classes separated before emission. -/
structure Classified where
  sensors : List (String × Row2)
  controllers : List Row2
  regular : List Row2
deriving DecidableEq, Repr

/-- One row of the classification loop of build_af_import: a sensor
goes into a dict keyed by P&ID Asset, a controller or regular asset is
appended to its list. -/
def classifyStep (acc : Classified) (r : Row2) : Classified :=
  if r.template == sensorTemplateName then
    { acc with sensors := dictInsert acc.sensors r.pidAsset r }
  else if r.template == controllerTemplateName then
    { acc with controllers := acc.controllers ++ [r] }
  else { acc with regular := acc.regular ++ [r] }

/-- The classification loop of build_af_import over all rows. -/
def classifyRows (rows : List Row2) : Classified :=
  rows.foldl classifyStep ⟨[], [], []⟩

/-- One output row of the AF import sheet (the constant Selected(x)
and Error columns are omitted). -/
structure OutRow where
  parent : Option String
  rowName : String
  objectType : String
  description : String
  securityString : String
  template : String
  value : String
deriving DecidableEq, Repr

/-- The display name built by add_row / get_asset_display_name: the
description is appended after a separator when present. -/
def displayName (name description : String) : String :=
  if description ≠ "" then name ++ " - " ++ description else name

/-- add_row from build_af_import (an Element row). -/
def addRow (secStr : String) (parent : Option String) (name description template : String) :
    OutRow :=
  ⟨parent, displayName name description, "Element", description, secStr, template, ""⟩

/-- add_attribute_row from build_af_import (an Attribute row). -/
def addAttributeRow (parentElement attributeName attributeValue : String) : OutRow :=
  ⟨some parentElement, attributeName, "Attribute", "", "", "", attributeValue⟩

/-- pandas unique(): first-occurrence order without duplicates. -/
def dedupFirst (l : List String) : List String :=
  l.foldl (fun acc x => if acc.contains x then acc else acc ++ [x]) []

/-- The skip test applied to level values before emitting a level
node: blank after stripping, or the string nan. -/
def blankLevel (s : String) : Bool :=
  pyStrip s == "" || pyLower s == "nan"

/-- Level 2 element rows, one per distinct non-blank Level 2 value. -/
def level2Rows (secStr level1 : String) (rows : List Row2) : List OutRow :=
  ((dedupFirst (rows.map (fun r => r.level2))).filter (fun v => !blankLevel v)).map
    (fun v => addRow secStr (some level1) v "" "")

/-- Insertion into an ascending list of strings (code-point order),
for the sorted group keys of pandas groupby. -/
def insertStrAsc (x : String) : List String → List String
  | [] => [x]
  | y :: ys => if charListLt y.data x.data then y :: insertStrAsc x ys else x :: y :: ys

/-- Ascending sort of strings by code-point order. -/
def sortStrings (l : List String) : List String := l.foldr insertStrAsc []

/-- Level 3 element rows: for each Level 2 group (groupby emits keys in
ascending order), one row per distinct non-blank Level 3 value of the
group, parented under the Level 2 path. -/
def level3Rows (secStr level1 : String) (rows : List Row2) : List OutRow :=
  (sortStrings (dedupFirst (rows.map (fun r => r.level2)))).flatMap (fun l2 =>
    let grp := rows.filter (fun r => r.level2 == l2)
    ((dedupFirst (grp.map (fun r => r.level3))).filter (fun v => !blankLevel v)).map
      (fun v => addRow secStr (some (level1 ++ "\\" ++ l2)) v "" ""))

/-- The default, level-based parent path of an asset row. -/
def defaultParentPath (level1 : String) (r : Row2) : String :=
  let p := if r.level2 ≠ "" ∧ pyLower r.level2 ≠ "nan" then level1 ++ "\\" ++ r.level2
    else level1
  if r.level3 ≠ "" ∧ pyLower r.level3 ≠ "nan" ∧ pyStrip r.level3 ≠ "" then
    p ++ "\\" ++ r.level3
  else p

/-- The three classes in emission order. -/
inductive AssetClass
  | sensor
  | regular
  | controller
deriving DecidableEq, Repr

/-- The parent path of one asset's Element row: the default
level-based path, except for a controller whose marker scan finds a
known sensor, which is re-parented under that sensor's display name
appended to the controller's own default path. -/
def emitParentPath (level1 : String) (sensors : List (String × Row2))
    (cls : AssetClass) (r : Row2) : String :=
  if cls = AssetClass.controller then
    match find_corresponding_sensor ((sensors.map (fun p => p.1)).map String.data)
        r.pidAsset.data with
    | some s =>
      match dictFind sensors (String.mk s) with
      | some srow => defaultParentPath level1 r ++ "\\" ++ displayName (String.mk s)
          srow.assetName
      | none => defaultParentPath level1 r
    | none => defaultParentPath level1 r
  else defaultParentPath level1 r

/-- Emission of one asset of the processing list: the Element row
(with the sensor-derived parent for a re-parented controller) followed
by the SCADA Asset Name attribute row when the asset carries a
template. -/
def emitAsset (secStr level1 : String) (sensors : List (String × Row2))
    (scada : List (String × String)) (cls : AssetClass) (r : Row2) : List OutRow :=
  let parentPath := emitParentPath level1 sensors cls r
  let elementRow := addRow secStr (some parentPath) r.pidAsset r.assetName r.template
  if r.template ≠ "" ∧ pyStrip r.template ≠ "" then
    [elementRow,
     addAttributeRow (parentPath ++ "\\" ++ displayName r.pidAsset r.assetName)
       "SCADA Asset Name" ((dictFind scada r.pidAsset).getD "")]
  else [elementRow]

/-- The asset section of the output: sensors first, then regular
assets, then controllers, each emitted through emitAsset. -/
def assembleAssets (secStr level1 : String) (cl : Classified)
    (scada : List (String × String)) : List OutRow :=
  (cl.sensors.map (fun p => (AssetClass.sensor, p.2))
      ++ cl.regular.map (fun r => (AssetClass.regular, r))
      ++ cl.controllers.map (fun r => (AssetClass.controller, r))).flatMap
    (fun pr => emitAsset secStr level1 cl.sensors scada pr.1 pr.2)

/-- The ordered output sequence of build_af_import given the rows that
survived matching and filtering: root, Level 2 rows, Level 3 rows,
asset rows. -/
def assembleRows (secStr level1 : String) (rows : List Row2)
    (scada : List (String × String)) : List OutRow :=
  addRow secStr none level1 "" ""
    :: (level2Rows secStr level1 rows
      ++ level3Rows secStr level1 rows
      ++ assembleAssets secStr level1 (classifyRows rows) scada)

/-- The deduplicate-match-filter stage of build_af_import (with the
hardcoded switch TemplatesExtractProvided = 1): when no templates load
(empty template dict is falsy), every deduplicated row is kept with an
empty Template; when templates load, the rows are matched and only
rows with a non-empty Template survive. -/
def keptRowsOf (templates : List (String × TemplateInfo))
    (assetAttrs : List (String × List String)) (inputRows : List InRow) : List Row2 :=
  if templates.isEmpty then
    (dedupRows (inputRows.map normalizeRow)).map
      (fun r => ⟨r.level2, r.level3, r.pidAsset, r.assetName, ""⟩)
  else
    (assignTemplates (match_assets_to_templates templates assetAttrs)
        (dedupRows (inputRows.map normalizeRow))).filter
      (fun r => r.template ≠ "")

/-- build_af_import from 010_TreeTagList.py, parameterised over the
externally loaded inputs: the raw template definitions, the per-asset
attribute sets of the full TLS table (used by
match_assets_to_templates), and the TLS rows holding a P&ID Asset. -/
def build_af_import (level1 secStr : String) (templateDefs : List (String × TemplateDef))
    (assetAttrs : List (String × List String)) (inputRows : List InRow) : List OutRow :=
  assembleRows secStr level1
    (keptRowsOf (load_af_templates templateDefs) assetAttrs inputRows)
    (scadaMappingOf inputRows)

/-- The full path a hierarchy row establishes: its parent path extended
by its own display name. -/
def rowPath (r : OutRow) : String :=
  match r.parent with
  | none => r.rowName
  | some p => p ++ "\\" ++ r.rowName

/-- Every row of the sequence either has no parent or names a parent
path already established by an earlier row (or given up front). -/
def parentsOk (done : List String) : List OutRow → Bool
  | [] => true
  | r :: rest =>
    (match r.parent with
     | none => true
     | some p => done.contains p) && parentsOk (rowPath r :: done) rest

/-- A controller's found sensor lies in the same level group: the
sensor row's default parent path equals the controller's own default
parent path. Holds vacuously when the scan finds nothing. -/
def controllerColocated (level1 : String) (cl : Classified) (c : Row2) : Bool :=
  match find_corresponding_sensor ((cl.sensors.map (fun p => p.1)).map String.data)
      c.pidAsset.data with
  | none => true
  | some s =>
    match dictFind cl.sensors (String.mk s) with
    | none => true
    | some srow => defaultParentPath level1 srow == defaultParentPath level1 c

/-- Sum of the directly declared attribute counts of all definitions,
an upper bound for any resolved attribute list. -/
def totalDirectCount (defs : List (String × TemplateDef)) : ℕ :=
  (defs.map (fun p => p.2.direct.length)).sum

/-! ## Theorems -/

/-- C2 (amended): when the suffix after the dropped prefix tokenizes
to exactly one token, parse_name_to_asset_attribute returns that token
as the asset AND as the attribute: the single token is simultaneously
the leftmost and the rightmost token, and the rightmost token is
always appended to the attribute, so the attribute is the token
itself, not the empty string. -/
theorem single_token_decomposition (name t : List Char)
    (h : tokenize (name.drop 4) = [t]) :
    parse_name_to_asset_attribute name = (t, t) := by
  have hne : name.drop 4 ≠ [] := by
    intro hnil
    rw [hnil] at h
    simp [tokenize, tokenizeAux] at h
  have hlen : ¬ name.length < 4 := by
    intro hlt
    exact hne (List.drop_eq_nil_iff.mpr (Nat.le_of_lt hlt))
  unfold parse_name_to_asset_attribute
  rw [if_neg hlen]
  simp only [h]
  rcases t with _ | ⟨c, cs⟩
  · simp
  · simp

/-- C2 counterexample: on TNP_abc the suffix abc is a single token and
the attribute returned is abc, not the empty string claimed. -/
theorem single_token_decomposition_counterexample :
    parse_name_to_asset_attribute "TNP_abc".data ≠ ("abc".data, []) ∧
    parse_name_to_asset_attribute "TNP_abc".data = ("abc".data, "abc".data) := by
  decide

/-- C2 witness: the amended theorem applied to TNP_abc. -/
theorem single_token_decomposition_witness :
    parse_name_to_asset_attribute "TNP_abc".data = ("abc".data, "abc".data) :=
  single_token_decomposition "TNP_abc".data "abc".data (by decide)

/-- Dropping the empty-part filter before joining does not change the
joined string. -/
theorem flatten_filter_ne_nil (xs : List (List Char)) :
    (xs.filter (fun p => !p.isEmpty)).flatten = xs.flatten := by
  induction xs with
  | nil => rfl
  | cons x xs ih =>
    rcases x with _ | ⟨c, cs⟩
    · simpa using ih
    · simp [ih]

/-- The scanner reproduces its input after the pending characters as
long as the input does not end in an underscore. -/
theorem tokenizeAux_flatten (cs : List Char) : ∀ (c : Char) (p : List Char) (f : Bool),
    (c :: cs).getLast? ≠ some '_' →
    (tokenizeAux p f (c :: cs)).flatten = p ++ c :: cs := by
  induction cs with
  | nil =>
    intro c p f h
    have hc : (c == '_') = false := by
      simp only [List.getLast?_singleton, ne_eq, Option.some.injEq] at h
      exact beq_eq_false_iff_ne.mpr h
    simp [tokenizeAux, hc]
  | cons d ds ih =>
    intro c p f h
    have h2 : (d :: ds).getLast? ≠ some '_' := by
      rwa [List.getLast?_cons_cons] at h
    by_cases hc : c = '_'
    · subst hc
      cases f
      · rw [show tokenizeAux p false ('_' :: d :: ds)
            = tokenizeAux (p ++ ['_']) false (d :: ds) by simp [tokenizeAux]]
        rw [ih d (p ++ ['_']) false h2]
        simp
      · rw [show tokenizeAux p true ('_' :: d :: ds)
            = p :: tokenizeAux ['_'] false (d :: ds) by simp [tokenizeAux]]
        rw [List.flatten_cons, ih d ['_'] false h2]
        rfl
    · have hcf : (c == '_') = false := beq_eq_false_iff_ne.mpr hc
      rw [show tokenizeAux p f (c :: d :: ds)
          = tokenizeAux (p ++ [c]) true (d :: ds) by simp [tokenizeAux, hcf]]
      rw [ih d (p ++ [c]) true h2]
      simp

/-- Tokenization is lossless exactly on suffixes without a trailing
separator: joining the tokens gives back the suffix. -/
theorem tokenize_flatten (core : List Char) (h : core.getLast? ≠ some '_') :
    (tokenize core).flatten = core := by
  rcases core with _ | ⟨c, cs⟩
  · rfl
  · simpa using tokenizeAux_flatten cs c [] false h

/-- Routing the head token to the first side preserves the split. -/
theorem splitsInto_left (t : List Char) (ts : List (List Char)) (a b : List Char)
    (h : splitsInto ts a b = true) : splitsInto (t :: ts) (t ++ a) b = true := by
  simp only [splitsInto, List.take_left, List.drop_left, h, beq_self_eq_true,
    Bool.and_true, Bool.true_or, Bool.and_self]

/-- Routing the head token to the second side preserves the split. -/
theorem splitsInto_right (t : List Char) (ts : List (List Char)) (a b : List Char)
    (h : splitsInto ts a b = true) : splitsInto (t :: ts) a (t ++ b) = true := by
  have h2 : ((t ++ b).take t.length == t && splitsInto ts a ((t ++ b).drop t.length))
      = true := by
    simp only [List.take_left, List.drop_left, h, beq_self_eq_true, Bool.and_self]
  simp only [splitsInto, h2, Bool.or_true]

/-- The final token alone is a valid split onto the second side. -/
theorem splitsInto_last (r : List Char) : splitsInto [r] [] r = true := by
  simp [splitsInto, List.take_length, List.drop_length]

/-- Middle tokens filtered to the two sides, followed by the rightmost
token on the attribute side, form a valid one-side-per-token split. -/
theorem splitsInto_partition (P : List Char → Bool) (mid : List (List Char))
    (r : List Char) :
    splitsInto (mid ++ [r]) (mid.filter P).flatten
      ((mid.filter (fun t => !P t)).flatten ++ r) = true := by
  induction mid with
  | nil => simpa using splitsInto_last r
  | cons m ms ih =>
    by_cases hm : P m = true
    · have h1 : ((m :: ms).filter P) = m :: ms.filter P := by
        rw [List.filter_cons, if_pos hm]
      have h2 : ((m :: ms).filter (fun t => !P t)) = ms.filter (fun t => !P t) := by
        rw [List.filter_cons]
        simp [hm]
      rw [h1, h2, List.flatten_cons, List.cons_append]
      exact splitsInto_left m _ _ _ ih
    · have hmf : P m = false := Bool.eq_false_iff.mpr hm
      have h1 : ((m :: ms).filter P) = ms.filter P := by
        rw [List.filter_cons]
        simp [hmf]
      have h2 : ((m :: ms).filter (fun t => !P t)) = m :: ms.filter (fun t => !P t) := by
        rw [List.filter_cons]
        simp [hmf]
      rw [h1, h2, List.flatten_cons, List.cons_append, List.append_assoc]
      exact splitsInto_right m _ _ _ ih

/-- Shape of the decomposition when the suffix has at least two
tokens: the asset is the leftmost token followed by the digit-only
middle tokens, the attribute is the remaining middle tokens followed
by the rightmost token. -/
theorem parse_two_tokens (name t1 : List Char) (mid : List (List Char)) (r : List Char)
    (h : tokenize (name.drop 4) = t1 :: mid ++ [r]) :
    parse_name_to_asset_attribute name =
      (t1 ++ (mid.filter middleToAsset).flatten,
       (mid.filter (fun t => !middleToAsset t)).flatten ++ r) := by
  have hnil : name.drop 4 ≠ [] := by
    intro hd
    rw [hd] at h
    simp [tokenize, tokenizeAux] at h
  have hlen : ¬ name.length < 4 := by
    intro hlt
    exact hnil (List.drop_eq_nil_iff.mpr (Nat.le_of_lt hlt))
  unfold parse_name_to_asset_attribute
  rw [if_neg hlen]
  simp only [h]
  have hgl : (t1 :: mid ++ [r]).getLastD [] = r := by
    rw [show t1 :: mid ++ [r] = (t1 :: mid) ++ [r] from rfl, List.getLastD_concat]
  have hdl : (t1 :: mid ++ [r] : List (List Char)).drop 1 = mid ++ [r] := rfl
  simp only [hgl, hdl, List.dropLast_concat, flatten_filter_ne_nil, List.flatten_cons,
    List.flatten_append, List.flatten_nil, List.append_nil]
  simp

/-- C6 (amended): when the suffix tokenizes to at least two tokens,
every token is routed to exactly one of the two returned strings in
original order (a valid one-side-per-token split of the token list);
and re-joining the token list reproduces the suffix exactly whenever
the suffix does not end in a separator. For a single-token suffix the
token lands in BOTH strings, and a trailing separator run is dropped
by the tokenizer, so the claim fails without these two conditions. -/
theorem token_partition_amended :
    (∀ name : List Char, 2 ≤ (tokenize (name.drop 4)).length →
      splitsInto (tokenize (name.drop 4)) (parse_name_to_asset_attribute name).1
        (parse_name_to_asset_attribute name).2 = true) ∧
    (∀ core : List Char, core.getLast? ≠ some '_' → (tokenize core).flatten = core) := by
  constructor
  · intro name hlen
    rcases htok : tokenize (name.drop 4) with _ | ⟨t1, rest⟩
    · rw [htok] at hlen
      simp at hlen
    · have hne : rest ≠ [] := by
        rw [htok] at hlen
        rcases rest with _ | ⟨r2, rest2⟩
        · simp at hlen
        · exact List.cons_ne_nil r2 rest2
      obtain ⟨mid, r, rfl⟩ : ∃ mid r, rest = mid ++ [r] :=
        ⟨rest.dropLast, rest.getLast hne, (List.dropLast_append_getLast hne).symm⟩
      rw [parse_two_tokens name t1 mid r htok]
      exact splitsInto_left t1 _ _ _ (splitsInto_partition middleToAsset mid r)
  · intro core h
    exact tokenize_flatten core h

/-- C6 counterexample: on TNP_abc the single token abc is placed in
both returned strings (no one-side-per-token split reproduces the
returned pair), and on TNP_a_b_ the trailing separator of the suffix
a_b_ is lost by tokenization. -/
theorem token_partition_counterexample :
    (parse_name_to_asset_attribute "TNP_abc".data = ("abc".data, "abc".data) ∧
      splitsInto (tokenize ("TNP_abc".data.drop 4)) "abc".data "abc".data = false) ∧
    (tokenize ("TNP_a_b_".data.drop 4)).flatten ≠ "TNP_a_b_".data.drop 4 := by
  decide

/-- C6 witness: the amended split property applied to TNP_a_b. -/
theorem token_partition_witness :
    splitsInto (tokenize ("TNP_a_b".data.drop 4))
      (parse_name_to_asset_attribute "TNP_a_b".data).1
      (parse_name_to_asset_attribute "TNP_a_b".data).2 = true :=
  token_partition_amended.1 "TNP_a_b".data (by decide)

/-- C10: a template whose base reference is non-empty but names no
known template resolves to exactly its direct attribute list; the
dangling reference contributes nothing and raises no error. -/
theorem dangling_base_resolves_to_direct (defs : List (String × TemplateDef))
    (name : String) (t : TemplateDef) (hfind : dictFind defs name = some t)
    (hbase : t.base ≠ "") (hdangle : dictFind defs t.base = none) :
    get_all_attributes defs [] name = t.direct := by
  rw [get_all_attributes]
  rw [if_neg (List.not_mem_nil name)]
  split
  · rename_i heq
    rw [hfind] at heq
    cases heq
  · rename_i t2 heq
    rw [hfind] at heq
    injection heq with heq2
    subst heq2
    rw [if_neg]
    simp [hdangle]

/-- C10 witness: a template with dangling base B resolves to its
direct attributes. -/
theorem dangling_base_resolves_to_direct_witness :
    get_all_attributes [("A", ⟨"B", [⟨"x", "tx"⟩]⟩)] [] "A" = [⟨"x", "tx"⟩] :=
  dangling_base_resolves_to_direct [("A", ⟨"B", [⟨"x", "tx"⟩]⟩)] "A"
    ⟨"B", [⟨"x", "tx"⟩]⟩ (by decide) (by decide) (by decide)

/-- Success of the positional scan: with a known-sensor substitution
at the first marker position that has one, the scan returns that
substitution (stated over the already-scanned prefix pre). -/
theorem findSensorScan_first_match (sensors : List (List Char)) :
    ∀ (u pre v : List Char),
    (pre ++ u ++ 'T' :: v) ∈ sensors →
    (∀ u2 v2, u ++ 'C' :: v = u2 ++ 'C' :: v2 → u2.length < u.length →
      (pre ++ u2 ++ 'T' :: v2) ∉ sensors) →
    findSensorScan sensors pre (u ++ 'C' :: v) = some (pre ++ u ++ 'T' :: v) := by
  intro u
  induction u with
  | nil =>
    intro pre v hmem hmin
    simp only [List.append_nil, List.nil_append] at hmem ⊢
    have hcont : sensors.contains (pre ++ 'T' :: v) = true :=
      List.elem_iff.mpr hmem
    unfold findSensorScan
    rw [if_pos (by rw [hcont]; rfl)]
  | cons x u ih =>
    intro pre v hmem hmin
    rw [List.cons_append]
    unfold findSensorScan
    have hcond : (x == 'C' && sensors.contains (pre ++ 'T' :: (u ++ 'C' :: v))) = false := by
      by_cases hx : x = 'C'
      · subst hx
        have hnm := hmin [] (u ++ 'C' :: v) rfl (by simp)
        simp only [beq_self_eq_true, Bool.true_and]
        rcases hcc : sensors.contains (pre ++ 'T' :: (u ++ 'C' :: v)) with _ | _
        · rfl
        · exact absurd (List.elem_iff.mp hcc) (by simpa using hnm)
      · simp [beq_eq_false_iff_ne.mpr hx]
    rw [if_neg (by rw [hcond]; simp)]
    have hmem2 : ((pre ++ [x]) ++ u ++ 'T' :: v) ∈ sensors := by
      simpa [List.append_assoc] using hmem
    have hmin2 : ∀ u2 v2, u ++ 'C' :: v = u2 ++ 'C' :: v2 → u2.length < u.length →
        ((pre ++ [x]) ++ u2 ++ 'T' :: v2) ∉ sensors := by
      intro u2 v2 heq hlt
      have := hmin (x :: u2) v2 (by simp [heq]) (by simpa using hlt)
      simpa [List.append_assoc] using this
    simpa [List.append_assoc] using ih (pre ++ [x]) v hmem2 hmin2

/-- Failure of the positional scan: when no marker position yields a
known sensor, the scan returns none. -/
theorem findSensorScan_no_match (sensors : List (List Char)) :
    ∀ (s pre : List Char),
    (∀ u v, s = u ++ 'C' :: v → (pre ++ u ++ 'T' :: v) ∉ sensors) →
    findSensorScan sensors pre s = none := by
  intro s
  induction s with
  | nil => intro pre _; rfl
  | cons c rest ih =>
    intro pre h
    unfold findSensorScan
    have hcond : (c == 'C' && sensors.contains (pre ++ 'T' :: rest)) = false := by
      by_cases hc : c = 'C'
      · subst hc
        have hnm := h [] rest rfl
        simp only [beq_self_eq_true, Bool.true_and]
        rcases hcc : sensors.contains (pre ++ 'T' :: rest) with _ | _
        · rfl
        · exact absurd (List.elem_iff.mp hcc) (by simpa using hnm)
      · simp [beq_eq_false_iff_ne.mpr hc]
    rw [if_neg (by rw [hcond]; simp)]
    apply ih (pre ++ [c])
    intro u v heq
    have := h (c :: u) v (by simp [heq])
    simpa [List.append_assoc] using this

/-- C4 (amended): the positional scan of find_corresponding_sensor
runs only for controller AssetIds of length at least 3 — shorter names
are never re-parented even when a marker substitution would hit a
sensor. For names of length at least 3, the first position holding C
whose T-substitution is a known sensor AssetId determines the result,
and when no position matches the result is none (default level-based
parent). A position i corresponds to a decomposition
name = u ++ C :: v with u of length i. -/
theorem controller_sensor_scan_amended (sensors : List (List Char)) (name : List Char) :
    (name.length < 3 → find_corresponding_sensor sensors name = none) ∧
    (∀ u v, 3 ≤ name.length → name = u ++ 'C' :: v → (u ++ 'T' :: v) ∈ sensors →
      (∀ u2 v2, name = u2 ++ 'C' :: v2 → u2.length < u.length →
        (u2 ++ 'T' :: v2) ∉ sensors) →
      find_corresponding_sensor sensors name = some (u ++ 'T' :: v)) ∧
    ((∀ u v, name = u ++ 'C' :: v → (u ++ 'T' :: v) ∉ sensors) →
      find_corresponding_sensor sensors name = none) := by
  refine ⟨?_, ?_, ?_⟩
  · intro h
    unfold find_corresponding_sensor
    rw [if_neg (by omega)]
  · intro u v hlen heq hmem hmin
    unfold find_corresponding_sensor
    rw [if_pos hlen]
    subst heq
    have hres := findSensorScan_first_match sensors u [] v (by simpa using hmem)
      (fun u2 v2 h2 hlt => by simpa using hmin u2 v2 h2 hlt)
    simpa using hres
  · intro h
    unfold find_corresponding_sensor
    split_ifs with hlen
    · exact findSensorScan_no_match sensors name []
        (fun u v hexp => by simpa using h u v hexp)
    · rfl

/-- C4 counterexample: controller C1 (length 2) is never scanned, so
it is not re-parented although position 0 holds the marker and the
substitution T1 is a known sensor AssetId. -/
theorem controller_sensor_scan_counterexample :
    find_corresponding_sensor ["T1".data] "C1".data = none ∧
    "C1".data = [] ++ 'C' :: "1".data ∧
    ([] ++ 'T' :: "1".data) ∈ ["T1".data] := by
  decide

/-- C4 witness: CI001 with sensor TI001 re-parents at position 0. -/
theorem controller_sensor_scan_witness :
    find_corresponding_sensor ["TI001".data] "CI001".data = some ("TI001".data) :=
  (controller_sensor_scan_amended ["TI001".data] "CI001".data).2.1
    [] "I001".data (by decide) (by decide) (by decide)
    (fun u2 v2 _ hlt => absurd hlt (Nat.not_lt_zero _))

/-- C9: a similarity pair is reported exactly when both common sets
are non-empty and the Jaccard index |A∩B| / |A∪B| * 100 is strictly
greater than 70; moreover whenever the division is evaluated (both
sets passed the non-emptiness guard) the union has non-zero
cardinality, so division by zero cannot occur. -/
theorem similarity_jaccard_guarded (set1 set2 : Finset String) :
    (∀ p : ℚ, similarityReport set1 set2 = some p ↔
      set1.Nonempty ∧ set2.Nonempty ∧
        p = (((set1 ∩ set2).card : ℚ) / ((set1 ∪ set2).card : ℚ)) * 100 ∧ 70 < p) ∧
    (set1.Nonempty → ((set1 ∪ set2).card : ℚ) ≠ 0) := by
  constructor
  · intro p
    unfold similarityReport
    split_ifs with h1 h2 h3
    · simp only [Option.some.injEq]
      constructor
      · rintro rfl
        exact ⟨h1.1, h1.2, rfl, h3⟩
      · rintro ⟨-, -, rfl, -⟩
        rfl
    · constructor
      · rintro ⟨⟩
      · rintro ⟨-, -, rfl, hlt⟩
        exact absurd hlt h3
    · constructor
      · rintro ⟨⟩
      · rintro ⟨hs1, -, -, -⟩
        exact absurd (hs1.mono Finset.subset_union_left) h2
    · constructor
      · rintro ⟨⟩
      · rintro ⟨hs1, hs2, -, -⟩
        exact absurd ⟨hs1, hs2⟩ h1
  · intro hs1
    have hcard : (set1 ∪ set2).card ≠ 0 :=
      Finset.card_ne_zero.mpr (hs1.mono Finset.subset_union_left)
    exact_mod_cast hcard

/-- Stable insertion permutes. -/
theorem insertPercentAsc_perm (x : String × ℚ) (l : List (String × ℚ)) :
    (insertPercentAsc x l).Perm (x :: l) := by
  induction l with
  | nil => exact List.Perm.refl _
  | cons y ys ih =>
    unfold insertPercentAsc
    split_ifs with h
    · exact List.Perm.refl _
    · exact (ih.cons y).trans (List.Perm.swap x y ys)

/-- Stable sorting permutes. -/
theorem sortPercentAsc_perm (l : List (String × ℚ)) : (sortPercentAsc l).Perm l := by
  induction l with
  | nil => exact List.Perm.refl _
  | cons x xs ih =>
    simp only [sortPercentAsc, List.foldr_cons]
    exact (insertPercentAsc_perm x _).trans (ih.cons x)

/-- Inserting a pair whose name precedes every name of a list that is
sorted ascending by percentage with name-ascending ties keeps the list
sorted that way. -/
theorem insertPercentAsc_pairwise (x : String × ℚ) (l : List (String × ℚ))
    (hl : l.Pairwise
      (fun u v => u.2 < v.2 ∨ (u.2 = v.2 ∧ charListLt u.1.data v.1.data = true)))
    (hx : ∀ y ∈ l, charListLt x.1.data y.1.data = true) :
    (insertPercentAsc x l).Pairwise
      (fun u v => u.2 < v.2 ∨ (u.2 = v.2 ∧ charListLt u.1.data v.1.data = true)) := by
  induction l with
  | nil => simp [insertPercentAsc]
  | cons y ys ih =>
    have hpw := List.pairwise_cons.mp hl
    unfold insertPercentAsc
    split_ifs with h
    · refine List.Pairwise.cons ?_ hl
      intro z hz
      rcases List.mem_cons.mp hz with rfl | hzys
      · rcases lt_or_eq_of_le h with hlt | heq
        · exact Or.inl hlt
        · exact Or.inr ⟨heq, hx z (List.mem_cons_self _ _)⟩
      · rcases hpw.1 z hzys with h1 | h1
        · exact Or.inl (lt_of_le_of_lt h h1)
        · rcases lt_or_eq_of_le h with hlt | heq
          · exact Or.inl (h1.1 ▸ hlt)
          · exact Or.inr ⟨heq.trans h1.1, hx z (List.mem_cons_of_mem y hzys)⟩
    · refine List.Pairwise.cons ?_ (ih hpw.2 (fun z hz => hx z (List.mem_cons_of_mem y hz)))
      intro z hz
      have hz2 : z ∈ x :: ys := (insertPercentAsc_perm x ys).subset hz
      rcases List.mem_cons.mp hz2 with rfl | hzys
      · exact Or.inl (lt_of_not_ge h)
      · exact hpw.1 z hzys

/-- Stable ascending sort of a name-ascending list is sorted by
percentage ascending with name-ascending ties. -/
theorem sortPercentAsc_pairwise (l : List (String × ℚ))
    (hl : l.Pairwise (fun u v => charListLt u.1.data v.1.data = true)) :
    (sortPercentAsc l).Pairwise
      (fun u v => u.2 < v.2 ∨ (u.2 = v.2 ∧ charListLt u.1.data v.1.data = true)) := by
  induction l with
  | nil => simp [sortPercentAsc]
  | cons x xs ih =>
    have hpw := List.pairwise_cons.mp hl
    simp only [sortPercentAsc, List.foldr_cons]
    apply insertPercentAsc_pairwise x _ (ih hpw.2)
    intro y hy
    exact hpw.1 y ((sortPercentAsc_perm xs).subset hy)

/-- C3 (amended): for a population-gated asset type the coverage
ranking contains exactly the attributes whose percentage is strictly
greater than 70, ordered descending by percentage — but ties between
equal percentages come out in DESCENDING attribute-name order, the
reversal of the name-ascending groupby order, because pandas
sort_values(ascending=False) reverses a (stable) ascending argsort;
the claimed name-ascending tie-break does not hold. -/
theorem coverage_ranking_amended (attrCounts : List (String × ℕ)) (assetCount : ℕ)
    (hpop : 2 < assetCount)
    (hnames : attrCounts.Pairwise (fun u v => charListLt u.1.data v.1.data = true)) :
    (∀ a p, (a, p) ∈ coverageRanking attrCounts assetCount ↔
      ∃ c, (a, c) ∈ attrCounts ∧ p = (c : ℚ) / (assetCount : ℚ) * 100 ∧ 70 < p) ∧
    (coverageRanking attrCounts assetCount).Pairwise
      (fun u v => v.2 < u.2 ∨ (v.2 = u.2 ∧ charListLt v.1.data u.1.data = true)) := by
  have hpop2 : 0 < assetCount := Nat.lt_of_lt_of_le (by norm_num) (Nat.le_of_lt hpop)
  constructor
  · intro a p
    unfold coverageRanking attr_percent
    rw [List.mem_filter, List.mem_reverse, (sortPercentAsc_perm _).mem_iff]
    simp only [List.mem_map, decide_eq_true_iff]
    constructor
    · rintro ⟨⟨⟨a2, c⟩, hmem, heq⟩, hgt⟩
      rw [Prod.mk.injEq] at heq
      obtain ⟨rfl, rfl⟩ := heq
      exact ⟨c, hmem, rfl, hgt⟩
    · rintro ⟨c, hmem, rfl, hgt⟩
      exact ⟨⟨(a, c), hmem, rfl⟩, hgt⟩
  · unfold coverageRanking attr_percent
    apply List.Pairwise.filter
    rw [List.pairwise_reverse]
    apply sortPercentAsc_pairwise
    rw [List.pairwise_map]
    exact hnames

/-- C3 counterexample: attributes a, b both at 100 percent coverage
(with c, d below threshold) are ranked b before a — name-descending,
not the claimed name-ascending. -/
theorem coverage_ranking_counterexample :
    coverageRanking [("a", 3), ("b", 3), ("c", 1), ("d", 1)] 3
        = [("b", 100), ("a", 100)] ∧
    coverageRanking [("a", 3), ("b", 3), ("c", 1), ("d", 1)] 3
        ≠ [("a", 100), ("b", 100)] := by
  have heval : coverageRanking [("a", 3), ("b", 3), ("c", 1), ("d", 1)] 3
      = [("b", 100), ("a", 100)] := by
    norm_num [coverageRanking, attr_percent, sortPercentAsc, insertPercentAsc]
  refine ⟨heval, ?_⟩
  rw [heval]
  simp

/-- C3 witness: the amended ordering applied to a concrete gated
type. -/
theorem coverage_ranking_witness :
    (coverageRanking [("a", 3), ("c", 1)] 3).Pairwise
      (fun u v => v.2 < u.2 ∨ (v.2 = u.2 ∧ charListLt v.1.data u.1.data = true)) :=
  (coverage_ranking_amended [("a", 3), ("c", 1)] 3 (by norm_num) (by decide)).2

/-- Unfolding lemma: a name already visited resolves to nothing. -/
theorem get_all_attributes_visited (defs : List (String × TemplateDef))
    (vis : List String) (name : String) (h : name ∈ vis) :
    get_all_attributes defs vis name = [] := by
  rw [get_all_attributes]
  simp [h]

/-- Unfolding lemma: an unknown name resolves to nothing. -/
theorem get_all_attributes_not_found (defs : List (String × TemplateDef))
    (vis : List String) (name : String) (h : name ∉ vis)
    (h2 : dictFind defs name = none) :
    get_all_attributes defs vis name = [] := by
  rw [get_all_attributes]
  rw [if_neg h]
  split
  · rfl
  · rename_i t2 heq
    rw [h2] at heq
    cases heq

/-- Unfolding lemma: a known name with a usable base resolves to its
direct attributes followed by the non-colliding inherited ones. -/
theorem get_all_attributes_with_base (defs : List (String × TemplateDef))
    (vis : List String) (name : String) (t : TemplateDef) (h : name ∉ vis)
    (h2 : dictFind defs name = some t)
    (h3 : t.base ≠ "" ∧ (dictFind defs t.base).isSome = true) :
    get_all_attributes defs vis name =
      t.direct ++ (get_all_attributes defs (name :: vis) t.base).filter
        (fun a => !(t.direct.map (fun b => b.attrName)).contains a.attrName) := by
  rw [get_all_attributes]
  rw [if_neg h]
  split
  · rename_i heq
    rw [h2] at heq
    cases heq
  · rename_i t2 heq
    rw [h2] at heq
    injection heq with heq2
    subst heq2
    rw [if_pos h3]

/-- Unfolding lemma: a known name without a usable base resolves to
its direct attributes alone. -/
theorem get_all_attributes_no_base (defs : List (String × TemplateDef))
    (vis : List String) (name : String) (t : TemplateDef) (h : name ∉ vis)
    (h2 : dictFind defs name = some t)
    (h3 : ¬ (t.base ≠ "" ∧ (dictFind defs t.base).isSome = true)) :
    get_all_attributes defs vis name = t.direct := by
  rw [get_all_attributes]
  rw [if_neg h]
  split
  · rename_i heq
    rw [h2] at heq
    cases heq
  · rename_i t2 heq
    rw [h2] at heq
    injection heq with heq2
    subst heq2
    rw [if_neg h3]

/-- Forbidding one more name can only shrink the filtered sum of
direct attribute counts. -/
theorem filteredSum_cons_le (defs : List (String × TemplateDef)) (vis : List String)
    (x : String) :
    ((defs.filter (fun p => !(x :: vis).contains p.1)).map
        (fun p => p.2.direct.length)).sum
      ≤ ((defs.filter (fun p => !vis.contains p.1)).map
        (fun p => p.2.direct.length)).sum := by
  induction defs with
  | nil => simp
  | cons d ds ih =>
    by_cases hv : vis.contains d.1 = true
    · have hxv : (x :: vis).contains d.1 = true := by
        rw [List.contains_cons, hv, Bool.or_true]
      simp only [List.filter_cons, hxv, hv, Bool.not_true, Bool.false_eq_true, if_false]
      exact ih
    · have hvf : vis.contains d.1 = false := Bool.eq_false_iff.mpr hv
      by_cases hdx : (d.1 == x) = true
      · have hxv : (x :: vis).contains d.1 = true := by
          rw [List.contains_cons, hdx, Bool.true_or]
        simp only [List.filter_cons, hxv, hvf, Bool.not_true, Bool.not_false,
          Bool.false_eq_true, if_false, if_true, List.map_cons, List.sum_cons]
        exact le_trans ih (Nat.le_add_left _ _)
      · have hdxf : (d.1 == x) = false := Bool.eq_false_iff.mpr hdx
        have hxv : (x :: vis).contains d.1 = false := by
          rw [List.contains_cons, hdxf, hvf, Bool.or_self]
        simp only [List.filter_cons, hxv, hvf, Bool.not_false, if_true,
          List.map_cons, List.sum_cons]
        omega

/-- A successfully looked-up name owns one of the summands of the
filtered sum: its direct count plus the sum without it still fits. -/
theorem filteredSum_lookup (defs : List (String × TemplateDef)) (vis : List String)
    (name : String) (t : TemplateDef) (hfind : dictFind defs name = some t)
    (hnv : name ∉ vis) :
    t.direct.length
      + ((defs.filter (fun p => !(name :: vis).contains p.1)).map
          (fun p => p.2.direct.length)).sum
      ≤ ((defs.filter (fun p => !vis.contains p.1)).map
          (fun p => p.2.direct.length)).sum := by
  induction defs with
  | nil => simp [dictFind] at hfind
  | cons d ds ih =>
    by_cases hdx : (d.1 == name) = true
    · have hd1 : d.1 = name := by simpa using hdx
      have ht : t = d.2 := by
        simp [dictFind, List.find?_cons, hdx] at hfind
        exact hfind.symm
      have hvf : vis.contains name = false := by
        rcases hcv : vis.contains name with _ | _
        · rfl
        · exact absurd (by simpa [List.elem_iff] using hcv) hnv
      have hxv : (name :: vis).contains name = true := by
        simp [List.contains_cons]
      simp only [hd1, ht, List.filter_cons, hxv, Bool.not_true, Bool.false_eq_true,
        if_false, hvf, Bool.not_false, if_true, List.map_cons, List.sum_cons]
      have := filteredSum_cons_le ds vis name
      omega
    · have hfind2 : dictFind ds name = some t := by
        simpa [dictFind, List.find?_cons, hdx] using hfind
      have hdxf : (d.1 == name) = false := Bool.eq_false_iff.mpr hdx
      have hctr : (name :: vis).contains d.1 = vis.contains d.1 := by
        rw [List.contains_cons, hdxf, Bool.false_or]
      by_cases hv : vis.contains d.1 = true
      · simp only [List.filter_cons, hctr, hv, Bool.not_true, Bool.false_eq_true, if_false]
        exact ih hfind2
      · have hvf : vis.contains d.1 = false := Bool.eq_false_iff.mpr hv
        simp only [List.filter_cons, hctr, hvf, Bool.not_false, if_true,
          List.map_cons, List.sum_cons]
        have := ih hfind2
        omega

/-- The resolved attribute list is bounded by the filtered sum of
direct attribute counts over the names not yet visited. -/
theorem get_all_attributes_length_le (defs : List (String × TemplateDef))
    (visited : List String) (name : String) :
    (get_all_attributes defs visited name).length
      ≤ ((defs.filter (fun p => !visited.contains p.1)).map
          (fun p => p.2.direct.length)).sum := by
  induction visited, name using get_all_attributes.induct defs with
  | case1 vis tname hmem =>
    rw [get_all_attributes_visited defs vis tname hmem]
    simp
  | case2 vis tname hnv hnone =>
    rw [get_all_attributes_not_found defs vis tname hnv hnone]
    simp
  | case3 vis tname hnv t hfind hbase ih =>
    rw [get_all_attributes_with_base defs vis tname t hnv hfind hbase]
    have h1 := filteredSum_lookup defs vis tname t hfind hnv
    have h2 : ((get_all_attributes defs (tname :: vis) t.base).filter
        (fun a => !(t.direct.map (fun b => b.attrName)).contains a.attrName)).length
        ≤ (get_all_attributes defs (tname :: vis) t.base).length :=
      List.length_filter_le _ _
    simp only [List.length_append]
    omega
  | case4 vis tname hnv t hfind hbase =>
    rw [get_all_attributes_no_base defs vis tname t hnv hfind hbase]
    have h1 := filteredSum_lookup defs vis tname t hfind hnv
    omega

/-- C8: inheritance resolution terminates on every definitions map,
cycles included: a name already visited contributes no further
attributes, and the resolved list of every template is finite — its
length never exceeds the total number of directly declared attributes
across all definitions. (The recursion itself is accepted by Lean with
the decreasing measure {definition keys} minus {visited}, which is the
termination argument of the visited-set walk.) -/
theorem inheritance_resolution_terminates (defs : List (String × TemplateDef))
    (visited : List String) (name : String) :
    (name ∈ visited → get_all_attributes defs visited name = []) ∧
    (get_all_attributes defs visited name).length ≤ totalDirectCount defs := by
  constructor
  · exact get_all_attributes_visited defs visited name
  · refine le_trans (get_all_attributes_length_le defs visited name) ?_
    unfold totalDirectCount
    apply List.Sublist.sum_le_sum
    · exact (List.filter_sublist defs).map _
    · intro a _
      exact Nat.zero_le a

/-- C8 witness: the cyclic map A → B → A, entered with A already
visited, resolves to nothing, and its resolved list is within the
total direct-attribute bound. -/
theorem inheritance_resolution_terminates_witness :
    get_all_attributes [("A", ⟨"B", [⟨"x", "tx"⟩]⟩), ("B", ⟨"A", [⟨"y", "ty"⟩]⟩)]
        ["A"] "A" = [] ∧
    (get_all_attributes [("A", ⟨"B", [⟨"x", "tx"⟩]⟩), ("B", ⟨"A", [⟨"y", "ty"⟩]⟩)]
        ["A"] "A").length
      ≤ totalDirectCount [("A", ⟨"B", [⟨"x", "tx"⟩]⟩), ("B", ⟨"A", [⟨"y", "ty"⟩]⟩)] :=
  ⟨(inheritance_resolution_terminates _ _ _).1 (by decide),
   (inheritance_resolution_terminates _ _ _).2⟩

/-- C9 witness: the characterisation applied to two equal two-element
sets, whose similarity 100 is reported. -/
theorem similarity_jaccard_guarded_witness :
    similarityReport {"a", "b"} {"a", "b"} = some 100 := by
  apply ((similarity_jaccard_guarded {"a", "b"} {"a", "b"}).1 100).mpr
  have hi : (({"a", "b"} : Finset String) ∩ {"a", "b"}).card = 2 := by decide
  have hu : (({"a", "b"} : Finset String) ∪ {"a", "b"}).card = 2 := by decide
  refine ⟨⟨"a", by decide⟩, ⟨"a", by decide⟩, ?_, by norm_num⟩
  rw [hi, hu]
  norm_num

/-- dictFind distributes over list append through Option.or. -/
theorem dictFind_append {α : Type} (m1 m2 : List (String × α)) (a : String) :
    dictFind (m1 ++ m2) a = (dictFind m1 a).or (dictFind m2 a) := by
  unfold dictFind
  rw [List.find?_append]
  cases hf : List.find? (fun p => p.1 == a) m1 with
  | none => simp [Option.or]
  | some p => simp [Option.or]

/-- Unfolding of one asset step of the matching pass. -/
theorem matchTemplateStep_cons (tname : String) (req : List String)
    (x : String × List String) (rest : List (String × List String))
    (mapping : List (String × String)) :
    matchTemplateStep tname req (x :: rest) mapping =
      matchTemplateStep tname req rest
        (if (dictFind mapping x.1).isNone && req.all (fun r => x.2.contains r) then
          mapping ++ [(x.1, tname)]
        else mapping) := rfl

/-- One matching pass never changes an existing assignment. -/
theorem matchTemplateStep_preserve (tname : String) (req : List String) :
    ∀ (assets : List (String × List String)) (mapping : List (String × String))
    (a t : String), dictFind mapping a = some t →
    dictFind (matchTemplateStep tname req assets mapping) a = some t := by
  intro assets
  induction assets with
  | nil => intro mapping a t h; exact h
  | cons x rest ih =>
    intro mapping a t h
    rw [matchTemplateStep_cons]
    by_cases hc : ((dictFind mapping x.1).isNone && req.all (fun r => x.2.contains r)) = true
    · rw [if_pos hc]
      apply ih _ a t
      rw [dictFind_append, h]
      rfl
    · rw [if_neg hc]
      exact ih mapping a t h

/-- One matching pass never assigns a name that is not an asset key. -/
theorem matchTemplateStep_no_key (tname : String) (req : List String) :
    ∀ (assets : List (String × List String)) (mapping : List (String × String))
    (a : String), a ∉ assets.map Prod.fst → dictFind mapping a = none →
    dictFind (matchTemplateStep tname req assets mapping) a = none := by
  intro assets
  induction assets with
  | nil => intro mapping a _ hnone; exact hnone
  | cons x rest ih =>
    intro mapping a hnk hnone
    have hxne : x.1 ≠ a := by
      intro heq
      exact hnk (by simp [heq.symm])
    have hxa : (x.1 == a) = false := beq_eq_false_iff_ne.mpr hxne
    have hnk2 : a ∉ rest.map Prod.fst := fun hm => hnk (by simp [hm])
    rw [matchTemplateStep_cons]
    by_cases hc : ((dictFind mapping x.1).isNone && req.all (fun r => x.2.contains r)) = true
    · rw [if_pos hc]
      apply ih _ a hnk2
      rw [dictFind_append, hnone]
      simp [dictFind, hxa]
    · rw [if_neg hc]
      exact ih mapping a hnk2 hnone

/-- One matching pass on an unmatched asset with first-bound attribute
set attrs assigns the template exactly when all required attributes
are present. -/
theorem matchTemplateStep_assign (tname : String) (req : List String) :
    ∀ (assets : List (String × List String)) (mapping : List (String × String))
    (a : String) (attrs : List String),
    dictFind mapping a = none → dictFind assets a = some attrs →
    (assets.map Prod.fst).Nodup →
    dictFind (matchTemplateStep tname req assets mapping) a =
      if req.all (fun r => attrs.contains r) then some tname else none := by
  intro assets
  induction assets with
  | nil =>
    intro mapping a attrs _ hfind _
    simp [dictFind] at hfind
  | cons x rest ih =>
    intro mapping a attrs hnone hfind hnodup
    rw [matchTemplateStep_cons]
    have hmap : (x.1 :: rest.map Prod.fst).Nodup := by
      simpa only [List.map_cons] using hnodup
    have hnodup1 := List.nodup_cons.mp hmap
    by_cases hxa : (x.1 == a) = true
    · have hx1 : x.1 = a := by simpa using hxa
      have hattrs : attrs = x.2 := by
        unfold dictFind at hfind
        rw [List.find?_cons] at hfind
        simp only [hxa] at hfind
        simp at hfind
        exact hfind.symm
      have hr : a ∉ rest.map Prod.fst := hx1 ▸ hnodup1.1
      subst hattrs
      by_cases hall : req.all (fun r => x.2.contains r) = true
      · have hcnone : (dictFind mapping x.1).isNone = true := by
          rw [hx1, hnone]
          rfl
        rw [if_pos (by rw [hcnone, hall]; rfl), if_pos hall]
        apply matchTemplateStep_preserve
        rw [dictFind_append, hnone]
        simp [dictFind, hx1]
      · have hallf : req.all (fun r => x.2.contains r) = false :=
          Bool.eq_false_iff.mpr hall
        rw [hallf]
        simp only [Bool.and_false, Bool.false_eq_true, if_false]
        exact matchTemplateStep_no_key tname req rest mapping a hr hnone
    · have hxaf : (x.1 == a) = false := Bool.eq_false_iff.mpr hxa
      have hfind2 : dictFind rest a = some attrs := by
        unfold dictFind at hfind ⊢
        rw [List.find?_cons] at hfind
        simpa only [hxaf] using hfind
      have hnodup2 : (rest.map Prod.fst).Nodup := hnodup1.2
      by_cases hc : ((dictFind mapping x.1).isNone && req.all (fun r => x.2.contains r)) = true
      · rw [if_pos hc]
        apply ih _ a attrs ?_ hfind2 hnodup2
        rw [dictFind_append, hnone]
        simp [dictFind, hxaf]
      · rw [if_neg hc]
        exact ih mapping a attrs hnone hfind2 hnodup2

/-- The template loop never changes an existing assignment. -/
theorem matchTemplatesLoop_preserve (assets : List (String × List String))
    (ts : List (String × TemplateInfo)) (mapping : List (String × String))
    (a t : String) (h : dictFind mapping a = some t) :
    dictFind (matchTemplatesLoop assets ts mapping) a = some t := by
  induction ts generalizing mapping with
  | nil => exact h
  | cons tp rest ih =>
    simp only [matchTemplatesLoop]
    by_cases hreq : (requiredAttributes tp.2).isEmpty = true
    · rw [if_pos hreq]
      exact ih mapping h
    · rw [if_neg hreq]
      exact ih _ (matchTemplateStep_preserve _ _ _ _ _ _ h)

/-- The template loop never assigns a name that is not an asset key. -/
theorem matchTemplatesLoop_no_key (assets : List (String × List String))
    (ts : List (String × TemplateInfo)) (mapping : List (String × String))
    (a : String) (hnk : a ∉ assets.map Prod.fst) (hnone : dictFind mapping a = none) :
    dictFind (matchTemplatesLoop assets ts mapping) a = none := by
  induction ts generalizing mapping with
  | nil => exact hnone
  | cons tp rest ih =>
    simp only [matchTemplatesLoop]
    by_cases hreq : (requiredAttributes tp.2).isEmpty = true
    · rw [if_pos hreq]
      exact ih mapping hnone
    · rw [if_neg hreq]
      exact ih _ (matchTemplateStep_no_key _ _ _ _ _ hnk hnone)

/-- The template loop computes, for each unmatched asset, the first
template in order whose non-empty required set is contained in the
asset's attribute set. -/
theorem matchTemplatesLoop_char (assets : List (String × List String))
    (ts : List (String × TemplateInfo)) (mapping : List (String × String))
    (a : String) (attrs : List String)
    (hnone : dictFind mapping a = none) (hfind : dictFind assets a = some attrs)
    (hnodup : (assets.map Prod.fst).Nodup) :
    dictFind (matchTemplatesLoop assets ts mapping) a =
      (ts.find? (fun tp => !(requiredAttributes tp.2).isEmpty
          && (requiredAttributes tp.2).all (fun r => attrs.contains r))).map Prod.fst := by
  induction ts generalizing mapping with
  | nil => simpa using hnone
  | cons tp rest ih =>
    simp only [matchTemplatesLoop]
    rw [List.find?_cons]
    by_cases hreq : (requiredAttributes tp.2).isEmpty = true
    · have hpred : (!(requiredAttributes tp.2).isEmpty
          && (requiredAttributes tp.2).all (fun r => attrs.contains r)) = false := by
        rw [hreq]
        rfl
      rw [if_pos hreq]
      simp only [hpred]
      exact ih mapping hnone
    · have hreqf : (requiredAttributes tp.2).isEmpty = false := Bool.eq_false_iff.mpr hreq
      rw [if_neg hreq]
      have hassign := matchTemplateStep_assign tp.1 (requiredAttributes tp.2) assets
        mapping a attrs hnone hfind hnodup
      by_cases hall : (requiredAttributes tp.2).all (fun r => attrs.contains r) = true
      · rw [if_pos hall] at hassign
        have hpred : (!(requiredAttributes tp.2).isEmpty
            && (requiredAttributes tp.2).all (fun r => attrs.contains r)) = true := by
          rw [hreqf, hall]
          rfl
        simp only [hpred]
        exact matchTemplatesLoop_preserve assets rest _ a tp.1 hassign
      · have hallf : (requiredAttributes tp.2).all (fun r => attrs.contains r) = false :=
          Bool.eq_false_iff.mpr hall
        rw [if_neg (by rw [hallf]; simp)] at hassign
        have hpred : (!(requiredAttributes tp.2).isEmpty
            && (requiredAttributes tp.2).all (fun r => attrs.contains r)) = false := by
          rw [hallf]
          simp
        simp only [hpred]
        exact ih _ hassign

/-- Stable descending insertion permutes. -/
theorem insertCountDesc_perm (x : String × TemplateInfo)
    (l : List (String × TemplateInfo)) : (insertCountDesc x l).Perm (x :: l) := by
  induction l with
  | nil => exact List.Perm.refl _
  | cons y ys ih =>
    unfold insertCountDesc
    split_ifs with h
    · exact List.Perm.refl _
    · exact (ih.cons y).trans (List.Perm.swap x y ys)

/-- Stable descending insertion preserves count-descending order. -/
theorem insertCountDesc_pairwise (x : String × TemplateInfo)
    (l : List (String × TemplateInfo))
    (hl : l.Pairwise (fun u v => attributeCount v.2 ≤ attributeCount u.2)) :
    (insertCountDesc x l).Pairwise
      (fun u v => attributeCount v.2 ≤ attributeCount u.2) := by
  induction l with
  | nil => simp [insertCountDesc]
  | cons y ys ih =>
    have hpw := List.pairwise_cons.mp hl
    unfold insertCountDesc
    split_ifs with h
    · refine List.Pairwise.cons ?_ hl
      intro z hz
      rcases List.mem_cons.mp hz with rfl | hzys
      · exact h
      · exact le_trans (hpw.1 z hzys) h
    · refine List.Pairwise.cons ?_ (ih hpw.2)
      intro z hz
      have hz2 : z ∈ x :: ys := (insertCountDesc_perm x ys).subset hz
      rcases List.mem_cons.mp hz2 with rfl | hzys
      · exact le_of_not_le h
      · exact hpw.1 z hzys

/-- The template list sorted by sorted(..., reverse=True) is ordered
by attribute count descending. -/
theorem sortTemplatesByCount_pairwise (l : List (String × TemplateInfo)) :
    (sortTemplatesByCount l).Pairwise
      (fun u v => attributeCount v.2 ≤ attributeCount u.2) := by
  induction l with
  | nil => simp [sortTemplatesByCount]
  | cons x xs ih =>
    simp only [sortTemplatesByCount, List.foldr_cons]
    exact insertCountDesc_pairwise x _ ih

/-- C7: the loaded template list is ordered by resolved attribute
count descending, and matching assigns to each asset at most one
template — none when the asset is unknown to the attribute table, and
otherwise exactly the first template in that priority order whose
non-empty required attribute set is contained in the asset's attribute
set; later templates never reassign it. -/
theorem template_matching_first_wins (defs : List (String × TemplateDef))
    (assets : List (String × List String)) (a : String)
    (hnodup : (assets.map Prod.fst).Nodup) :
    (load_af_templates defs).Pairwise
      (fun u v => attributeCount v.2 ≤ attributeCount u.2) ∧
    (dictFind assets a = none →
      dictFind (match_assets_to_templates (load_af_templates defs) assets) a = none) ∧
    (∀ attrs, dictFind assets a = some attrs →
      dictFind (match_assets_to_templates (load_af_templates defs) assets) a =
        ((load_af_templates defs).find? (fun tp => !(requiredAttributes tp.2).isEmpty
            && (requiredAttributes tp.2).all (fun r => attrs.contains r))).map
          Prod.fst) := by
  refine ⟨sortTemplatesByCount_pairwise _, ?_, ?_⟩
  · intro hnone
    have hnk : a ∉ assets.map Prod.fst := by
      intro hm
      rcases List.mem_map.mp hm with ⟨p, hp, hpa⟩
      have : List.find? (fun p => p.1 == a) assets = none := by
        simpa [dictFind] using hnone
      have := List.find?_eq_none.mp this p hp
      simp [hpa] at this
    exact matchTemplatesLoop_no_key assets _ [] a hnk rfl
  · intro attrs hfind
    exact matchTemplatesLoop_char assets _ [] a attrs rfl hfind hnodup

/-- C7 witness: with templates T1 (two required attributes) and T2
(one, a subset of T1's) an asset carrying both attributes is assigned
T1, the more specific template. -/
theorem template_matching_first_wins_witness :
    dictFind (match_assets_to_templates
        (load_af_templates [("T1", ⟨"", [⟨"x", "a"⟩, ⟨"y", "b"⟩]⟩),
          ("T2", ⟨"", [⟨"z", "a"⟩]⟩)])
        [("P", ["a", "b"])]) "P" =
      ((load_af_templates [("T1", ⟨"", [⟨"x", "a"⟩, ⟨"y", "b"⟩]⟩),
          ("T2", ⟨"", [⟨"z", "a"⟩]⟩)]).find?
        (fun tp => !(requiredAttributes tp.2).isEmpty
          && (requiredAttributes tp.2).all
            (fun r => (["a", "b"] : List String).contains r))).map Prod.fst :=
  (template_matching_first_wins
    [("T1", ⟨"", [⟨"x", "a"⟩, ⟨"y", "b"⟩]⟩), ("T2", ⟨"", [⟨"z", "a"⟩]⟩)]
    [("P", ["a", "b"])] "P" (by decide)).2.2 ["a", "b"] (by decide)

/-- Rows without a template all land in the regular bucket, in order. -/
theorem foldl_classifyStep_regular : ∀ (rows : List Row2) (acc : Classified),
    (∀ r ∈ rows, r.template = "") →
    rows.foldl classifyStep acc =
      ⟨acc.sensors, acc.controllers, acc.regular ++ rows⟩ := by
  intro rows
  induction rows with
  | nil => intro acc _; simp
  | cons r rest ih =>
    intro acc h
    have hr : r.template = "" := h r (List.mem_cons_self _ _)
    have hs : (r.template == sensorTemplateName) = false := by
      rw [hr]; decide
    have hc : (r.template == controllerTemplateName) = false := by
      rw [hr]; decide
    simp only [List.foldl_cons, classifyStep, hs, hc, Bool.false_eq_true, if_false]
    rw [ih _ (fun q hq => h q (List.mem_cons_of_mem _ hq))]
    simp

/-- The Element rows produced for one asset: exactly one, named by the
display name and carrying the asset's template. -/
theorem emitAsset_element_rows (secStr level1 : String) (sensors : List (String × Row2))
    (scada : List (String × String)) (cls : AssetClass) (r : Row2) :
    ((emitAsset secStr level1 sensors scada cls r).filter
        (fun q => q.objectType == "Element")).map (fun q => (q.rowName, q.template)) =
      [(displayName r.pidAsset r.assetName, r.template)] := by
  unfold emitAsset
  by_cases hg : r.template ≠ "" ∧ pyStrip r.template ≠ ""
  · simp [hg, addRow, addAttributeRow]
  · simp [hg, addRow]

/-- When the template column is empty the emission of one asset is a
single Element row at the default level-based parent. -/
theorem emitAsset_untemplated (secStr level1 : String) (sensors : List (String × Row2))
    (scada : List (String × String)) (r : Row2) (h : r.template = "") :
    emitAsset secStr level1 sensors scada AssetClass.regular r =
      [addRow secStr (some (defaultParentPath level1 r)) r.pidAsset r.assetName ""] := by
  unfold emitAsset
  have hg : ¬ (r.template ≠ "" ∧ pyStrip r.template ≠ "") := by
    intro hcontra
    exact hcontra.1 h
  simp [hg, h, emitParentPath]

/-- Filtering and projecting a flatMap whose pieces each contribute one
projected row. -/
theorem flatMap_filter_map_singleton {α : Type} (p : OutRow → Bool)
    (g : OutRow → String × String) (f : α → List OutRow) (h : α → String × String) :
    ∀ (l : List α), (∀ x ∈ l, ((f x).filter p).map g = [h x]) →
    ((l.flatMap f).filter p).map g = l.map h := by
  intro l
  induction l with
  | nil => intro _; rfl
  | cons x rest ih =>
    intro hx
    simp only [List.flatMap_cons, List.filter_append, List.map_append]
    rw [hx x (List.mem_cons_self _ _), ih (fun y hy => hx y (List.mem_cons_of_mem _ hy))]
    rfl

/-- Inserting a fresh key into a python dict appends the binding. -/
theorem dictInsert_fresh {α : Type} (m : List (String × α)) (k : String) (v : α)
    (h : k ∉ m.map Prod.fst) : dictInsert m k v = m ++ [(k, v)] := by
  unfold dictInsert
  have hf : m.find? (fun p => p.1 == k) = none := by
    rw [List.find?_eq_none]
    intro p hp hbeq
    exact h (List.mem_map.mpr ⟨p, hp, by simpa using hbeq⟩)
  rw [hf]
  rfl

/-- With pairwise distinct P&ID Assets the three classification
buckets together hold exactly the classified rows. -/
theorem classify_buckets_perm : ∀ (rows : List Row2) (acc : Classified),
    (rows.map (fun r => r.pidAsset)).Nodup →
    (∀ k, k ∈ acc.sensors.map Prod.fst → k ∉ rows.map (fun r => r.pidAsset)) →
    (((rows.foldl classifyStep acc).sensors.map Prod.snd)
        ++ (rows.foldl classifyStep acc).regular
        ++ (rows.foldl classifyStep acc).controllers).Perm
      ((acc.sensors.map Prod.snd ++ acc.regular ++ acc.controllers) ++ rows) := by
  intro rows
  induction rows with
  | nil =>
    intro acc _ _
    simp
  | cons r rest ih =>
    intro acc hnodup hkeys
    have hnd := List.nodup_cons.mp (by simpa only [List.map_cons] using hnodup)
    have hrpid : r.pidAsset ∉ rest.map (fun q => q.pidAsset) := hnd.1
    have hnodup2 : (rest.map (fun q => q.pidAsset)).Nodup := hnd.2
    simp only [List.foldl_cons]
    unfold classifyStep
    by_cases hs : (r.template == sensorTemplateName) = true
    · rw [if_pos hs]
      have hfresh : r.pidAsset ∉ acc.sensors.map Prod.fst := by
        intro hm
        exact hkeys r.pidAsset hm (by simp)
      rw [dictInsert_fresh _ _ _ hfresh]
      have hkeys2 : ∀ k, k ∈ (acc.sensors ++ [(r.pidAsset, r)]).map Prod.fst →
          k ∉ rest.map (fun q => q.pidAsset) := by
        intro k hk
        rw [List.map_append] at hk
        rcases List.mem_append.mp hk with hk1 | hk2
        · intro hm
          exact hkeys k hk1 (by simp [hm])
        · simp at hk2
          subst hk2
          exact hrpid
      refine (ih { acc with sensors := acc.sensors ++ [(r.pidAsset, r)] }
        hnodup2 hkeys2).trans ?_
      refine Multiset.coe_eq_coe.mp ?_
      rw [show r :: rest = [r] ++ rest from rfl]
      simp only [List.map_append, List.map_cons, List.map_nil]
      simp only [← Multiset.coe_add]
      abel
    · rw [if_neg hs]
      by_cases hc : (r.template == controllerTemplateName) = true
      · rw [if_pos hc]
        have hkeys2 : ∀ k, k ∈ acc.sensors.map Prod.fst →
            k ∉ rest.map (fun q => q.pidAsset) := by
          intro k hk hm
          exact hkeys k hk (by simp [hm])
        refine (ih { acc with controllers := acc.controllers ++ [r] }
          hnodup2 hkeys2).trans ?_
        refine Multiset.coe_eq_coe.mp ?_
        rw [show r :: rest = [r] ++ rest from rfl]
        simp only [← Multiset.coe_add]
        abel
      · rw [if_neg hc]
        have hkeys2 : ∀ k, k ∈ acc.sensors.map Prod.fst →
            k ∉ rest.map (fun q => q.pidAsset) := by
          intro k hk hm
          exact hkeys k hk (by simp [hm])
        refine (ih { acc with regular := acc.regular ++ [r] }
          hnodup2 hkeys2).trans ?_
        refine Multiset.coe_eq_coe.mp ?_
        rw [show r :: rest = [r] ++ rest from rfl]
        simp only [← Multiset.coe_add]
        abel

/-- C1 (amended): when templates are loaded, only assets matched to a
template survive the filter into hierarchy assembly — an asset matched
to no template is silently removed from the output rather than kept
with an empty reference — and every surviving (deduplicated) asset
yields exactly one Element node carrying its template. When no
templates load, every deduplicated asset is kept and yields exactly
one Element node with an empty template reference, and absence of a
match is never an error. -/
theorem hierarchy_asset_rows_amended (secStr level1 : String) :
    (∀ (rows : List Row2) (scada : List (String × String)),
      (∀ r ∈ rows, r.template = "") →
      assembleAssets secStr level1 (classifyRows rows) scada =
        rows.map (fun r =>
          addRow secStr (some (defaultParentPath level1 r)) r.pidAsset r.assetName "")) ∧
    (∀ (rows : List Row2) (scada : List (String × String)),
      (rows.map (fun r => r.pidAsset)).Nodup →
      (((assembleAssets secStr level1 (classifyRows rows) scada).filter
          (fun q => q.objectType == "Element")).map
        (fun q => (q.rowName, q.template))).Perm
        (rows.map (fun r => (displayName r.pidAsset r.assetName, r.template)))) ∧
    (∀ templates assetAttrs inputRows r, templates ≠ ([] : List (String × TemplateInfo)) →
      r ∈ keptRowsOf templates assetAttrs inputRows → r.template ≠ "") ∧
    (∀ assetAttrs inputRows, keptRowsOf [] assetAttrs inputRows =
      (dedupRows (inputRows.map normalizeRow)).map
        (fun r => ⟨r.level2, r.level3, r.pidAsset, r.assetName, ""⟩)) := by
  refine ⟨?_, ?_, ?_, ?_⟩
  · intro rows scada h
    unfold assembleAssets classifyRows
    rw [foldl_classifyStep_regular rows ⟨[], [], []⟩ h]
    simp only [List.map_nil, List.nil_append, List.append_nil]
    induction rows with
    | nil => rfl
    | cons r rest ih =>
      have hr : r.template = "" := h r (List.mem_cons_self _ _)
      simp only [List.map_cons, List.flatMap_cons]
      rw [emitAsset_untemplated _ _ _ _ _ hr,
        ih (fun q hq => h q (List.mem_cons_of_mem _ hq))]
      rfl
  · intro rows scada hnodup
    unfold assembleAssets classifyRows
    have hflat := flatMap_filter_map_singleton (fun q => q.objectType == "Element")
      (fun q => (q.rowName, q.template))
      (fun pr => emitAsset secStr level1 (rows.foldl classifyStep ⟨[], [], []⟩).sensors
        scada pr.1 pr.2)
      (fun pr => (displayName pr.2.pidAsset pr.2.assetName, pr.2.template))
      ((rows.foldl classifyStep ⟨[], [], []⟩).sensors.map (fun p => (AssetClass.sensor, p.2))
        ++ (rows.foldl classifyStep ⟨[], [], []⟩).regular.map (fun r => (AssetClass.regular, r))
        ++ (rows.foldl classifyStep ⟨[], [], []⟩).controllers.map
          (fun r => (AssetClass.controller, r)))
      (fun x _ => emitAsset_element_rows secStr level1 _ scada x.1 x.2)
    rw [hflat]
    have hperm := classify_buckets_perm rows ⟨[], [], []⟩ hnodup
      (by intro k hk; simp at hk)
    simp only [List.map_nil, List.nil_append] at hperm
    have := hperm.map (fun r => (displayName r.pidAsset r.assetName, r.template))
    simp only [List.map_append, List.map_map] at this ⊢
    simpa using this
  · intro templates assetAttrs inputRows r hne hmem
    unfold keptRowsOf at hmem
    rw [if_neg (by simpa using hne)] at hmem
    have := (List.mem_filter.mp hmem).2
    simpa using this
  · intro assetAttrs inputRows
    unfold keptRowsOf
    rfl

/-- C1 counterexample: with a loaded template requiring attribute a,
an asset P1 that has only attribute b survives deduplication but is
matched to no template, and the entire output collapses to the lone
root row — the unmatched asset is removed, not kept with an empty
template reference. -/
theorem hierarchy_asset_rows_counterexample :
    dedupRows (([⟨"L2", "L3", "P1", "Pump", none⟩] : List InRow).map normalizeRow)
      = [⟨"L2", "L3", "P1", "Pump", none⟩] ∧
    build_af_import "Root" "" [("T1", ⟨"", [⟨"A", "a"⟩]⟩)] [("P1", ["b"])]
        [⟨"L2", "L3", "P1", "Pump", none⟩]
      = [addRow "" none "Root" "" ""] := by
  have h : get_all_attributes [("T1", ⟨"", [⟨"A", "a"⟩]⟩)] [] "T1" = [⟨"A", "a"⟩] := by
    rw [get_all_attributes]
    decide
  constructor
  · decide
  · rw [build_af_import, load_af_templates]
    simp only [List.map, h]
    decide

/-- C1 witness: the amended untemplated emission applied to one row. -/
theorem hierarchy_asset_rows_witness :
    assembleAssets "" "Root" (classifyRows [⟨"A", "Z", "P1", "", ""⟩]) [] =
      [addRow "" (some (defaultParentPath "Root" ⟨"A", "Z", "P1", "", ""⟩)) "P1" "" ""] :=
  (hierarchy_asset_rows_amended "" "Root").1 [⟨"A", "Z", "P1", "", ""⟩] [] (by decide)

/-- A display name with an empty description is the name itself. -/
theorem displayName_empty (n : String) : displayName n "" = n := by
  simp [displayName]

/-- parentsOk splits over append, threading the established paths. -/
theorem parentsOk_append : ∀ (xs ys : List OutRow) (done : List String),
    parentsOk done (xs ++ ys) =
      (parentsOk done xs &&
        parentsOk (xs.foldl (fun d r => rowPath r :: d) done) ys) := by
  intro xs
  induction xs with
  | nil => intro ys done; rfl
  | cons r rest ih =>
    intro ys done
    simp only [List.cons_append, parentsOk, List.foldl_cons, List.append_eq]
    rw [ih, Bool.and_assoc]

/-- Accumulated paths only grow. -/
theorem foldl_paths_superset : ∀ (xs : List OutRow) (done : List String) (p : String),
    p ∈ done → p ∈ xs.foldl (fun d r => rowPath r :: d) done := by
  intro xs
  induction xs with
  | nil => intro done p h; exact h
  | cons r rest ih =>
    intro done p h
    exact ih _ p (List.mem_cons_of_mem _ h)

/-- The path of every emitted row is accumulated. -/
theorem foldl_paths_mem : ∀ (xs : List OutRow) (done : List String) (r : OutRow),
    r ∈ xs → rowPath r ∈ xs.foldl (fun d q => rowPath q :: d) done := by
  intro xs
  induction xs with
  | nil =>
    intro done r h
    cases h
  | cons x rest ih =>
    intro done r hr
    rcases List.mem_cons.mp hr with rfl | hr2
    · exact foldl_paths_superset rest _ _ (List.mem_cons_self _ _)
    · exact ih _ r hr2

/-- A block of rows sharing one already-established parent is fine. -/
theorem parentsOk_const_parent (secStr P : String) :
    ∀ (vals : List String) (done : List String), P ∈ done →
    parentsOk done (vals.map (fun v => addRow secStr (some P) v "" "")) = true := by
  intro vals
  induction vals with
  | nil => intro done _; rfl
  | cons v rest ih =>
    intro done hP
    simp only [List.map_cons, parentsOk, addRow]
    rw [Bool.and_eq_true]
    refine ⟨List.elem_iff.mpr hP, ?_⟩
    exact ih _ (List.mem_cons_of_mem _ hP)

/-- Grouped blocks of rows are fine when every non-empty group's
parent is already established. -/
theorem parentsOk_groups (secStr : String) (pf : String → String)
    (f : String → List String) :
    ∀ (keys : List String) (done : List String),
    (∀ k ∈ keys, f k = [] ∨ pf k ∈ done) →
    parentsOk done (keys.flatMap (fun k => (f k).map
      (fun v => addRow secStr (some (pf k)) v "" ""))) = true := by
  intro keys
  induction keys with
  | nil => intro done _; rfl
  | cons k rest ih =>
    intro done h
    rw [List.flatMap_cons, parentsOk_append, Bool.and_eq_true]
    refine ⟨?_, ?_⟩
    · rcases h k (List.mem_cons_self _ _) with hnil | hmem
      · rw [hnil]
        rfl
      · exact parentsOk_const_parent secStr (pf k) (f k) done hmem
    · apply ih
      intro k2 hk2
      rcases h k2 (List.mem_cons_of_mem _ hk2) with hnil | hmem
      · exact Or.inl hnil
      · exact Or.inr (foldl_paths_superset _ _ _ hmem)

/-- Membership in the first-occurrence deduplication. -/
theorem mem_dedupFirst_aux : ∀ (l acc : List String) (x : String),
    x ∈ l.foldl (fun acc y => if acc.contains y then acc else acc ++ [y]) acc ↔
      x ∈ acc ∨ x ∈ l := by
  intro l
  induction l with
  | nil =>
    intro acc x
    simp
  | cons y rest ih =>
    intro acc x
    simp only [List.foldl_cons]
    by_cases hy : acc.contains y = true
    · rw [if_pos hy, ih]
      constructor
      · rintro (h | h)
        · exact Or.inl h
        · exact Or.inr (List.mem_cons_of_mem _ h)
      · rintro (h | h)
        · exact Or.inl h
        · rcases List.mem_cons.mp h with rfl | h2
          · exact Or.inl (List.elem_iff.mp hy)
          · exact Or.inr h2
    · rw [if_neg hy, ih]
      constructor
      · rintro (h | h)
        · rcases List.mem_append.mp h with h1 | h2
          · exact Or.inl h1
          · simp at h2
            subst h2
            exact Or.inr (List.mem_cons_self _ _)
        · exact Or.inr (List.mem_cons_of_mem _ h)
      · rintro (h | h)
        · exact Or.inl (List.mem_append.mpr (Or.inl h))
        · rcases List.mem_cons.mp h with rfl | h2
          · exact Or.inl (List.mem_append.mpr (Or.inr (List.mem_cons_self _ _)))
          · exact Or.inr h2

/-- dedupFirst has the same members as its input. -/
theorem mem_dedupFirst (l : List String) (x : String) :
    x ∈ dedupFirst l ↔ x ∈ l := by
  unfold dedupFirst
  rw [mem_dedupFirst_aux]
  simp

/-- Ascending string insertion permutes. -/
theorem insertStrAsc_perm (x : String) (l : List String) :
    (insertStrAsc x l).Perm (x :: l) := by
  induction l with
  | nil => exact List.Perm.refl _
  | cons y ys ih =>
    unfold insertStrAsc
    split_ifs with h
    · exact (ih.cons y).trans (List.Perm.swap x y ys)
    · exact List.Perm.refl _

/-- Sorting the group keys permutes. -/
theorem sortStrings_perm (l : List String) : (sortStrings l).Perm l := by
  induction l with
  | nil => exact List.Perm.refl _
  | cons x xs ih =>
    simp only [sortStrings, List.foldr_cons]
    exact (insertStrAsc_perm x _).trans (ih.cons x)

/-- Members of a python dict after insertion come from the old dict or
are the inserted binding. -/
theorem mem_dictInsert {α : Type} (m : List (String × α)) (k : String) (v : α)
    (x : String × α) (h : x ∈ dictInsert m k v) : x ∈ m ∨ x = (k, v) := by
  unfold dictInsert at h
  split_ifs at h with hf
  · rcases List.mem_map.mp h with ⟨p, hp, hpe⟩
    by_cases hpk : (p.1 == k) = true
    · rw [if_pos hpk] at hpe
      exact Or.inr hpe.symm
    · rw [if_neg hpk] at hpe
      subst hpe
      exact Or.inl hp
  · rcases List.mem_append.mp h with h1 | h2
    · exact Or.inl h1
    · simp at h2
      subst h2
      exact Or.inr rfl

/-- A successful dict lookup is a binding of the dict. -/
theorem dictFind_mem {α : Type} (m : List (String × α)) (k : String) (v : α)
    (h : dictFind m k = some v) : (k, v) ∈ m := by
  unfold dictFind at h
  rcases Option.map_eq_some'.mp h with ⟨p, hp, hpe⟩
  have hpm := List.mem_of_find?_eq_some hp
  have hpk : p.1 = k := by simpa using List.find?_some hp
  have : p = (k, v) := by
    rcases p with ⟨p1, p2⟩
    simp only at hpk hpe
    rw [hpk, hpe]
  rwa [this] at hpm

/-- A key present in a dict has a successful lookup. -/
theorem dictFind_isSome {α : Type} : ∀ (m : List (String × α)) (k : String),
    k ∈ m.map Prod.fst → ∃ v, dictFind m k = some v := by
  intro m
  induction m with
  | nil =>
    intro k h
    simp at h
  | cons p rest ih =>
    intro k h
    rw [List.map_cons] at h
    by_cases hpk : (p.1 == k) = true
    · exact ⟨p.2, by simp [dictFind, List.find?_cons, hpk]⟩
    · have hk : k ∈ rest.map Prod.fst := by
        rcases List.mem_cons.mp h with h1 | h1
        · exact absurd (beq_iff_eq.mpr h1.symm) hpk
        · exact h1
      rcases ih k hk with ⟨v, hv⟩
      refine ⟨v, ?_⟩
      simpa [dictFind, List.find?_cons, hpk] using hv

/-- The sensor returned by the scan is one of the known sensors. -/
theorem findSensorScan_result_mem (sensors : List (List Char)) :
    ∀ (s pre : List Char) (r : List Char),
    findSensorScan sensors pre s = some r → r ∈ sensors := by
  intro s
  induction s with
  | nil =>
    intro pre r h
    cases h
  | cons c rest ih =>
    intro pre r h
    simp only [findSensorScan] at h
    split_ifs at h with hc
    · have hcont : sensors.contains (pre ++ 'T' :: rest) = true :=
        (Bool.and_eq_true _ _ ▸ hc).2
      injection h with h2
      subst h2
      exact List.elem_iff.mp hcont
    · exact ih _ r h

/-- The sensor returned by find_corresponding_sensor is a known
sensor. -/
theorem find_corresponding_sensor_result_mem (sensors : List (List Char))
    (name r : List Char) (h : find_corresponding_sensor sensors name = some r) :
    r ∈ sensors := by
  unfold find_corresponding_sensor at h
  split_ifs at h with hlen
  exact findSensorScan_result_mem sensors name [] r h

/-- Every binding of the sensor bucket is keyed by its row's P&ID
Asset, carries the sensor template, and its row is a classified row. -/
theorem classify_sensors_spec : ∀ (rows : List Row2) (acc : Classified),
    ∀ x ∈ (rows.foldl classifyStep acc).sensors,
      x ∈ acc.sensors ∨
        (x.1 = x.2.pidAsset ∧ x.2.template = sensorTemplateName ∧ x.2 ∈ rows) := by
  intro rows
  induction rows with
  | nil =>
    intro acc x hx
    exact Or.inl hx
  | cons r rest ih =>
    intro acc x hx
    simp only [List.foldl_cons] at hx
    unfold classifyStep at hx
    by_cases hs : (r.template == sensorTemplateName) = true
    · rw [if_pos hs] at hx
      rcases ih _ x hx with h1 | h2
      · rcases mem_dictInsert _ _ _ _ h1 with h3 | h3
        · exact Or.inl h3
        · subst h3
          exact Or.inr ⟨rfl, by simpa using hs, List.mem_cons_self _ _⟩
      · exact Or.inr ⟨h2.1, h2.2.1, List.mem_cons_of_mem _ h2.2.2⟩
    · rw [if_neg hs] at hx
      by_cases hc : (r.template == controllerTemplateName) = true
      · rw [if_pos hc] at hx
        rcases ih _ x hx with h1 | h2
        · exact Or.inl h1
        · exact Or.inr ⟨h2.1, h2.2.1, List.mem_cons_of_mem _ h2.2.2⟩
      · rw [if_neg hc] at hx
        rcases ih _ x hx with h1 | h2
        · exact Or.inl h1
        · exact Or.inr ⟨h2.1, h2.2.1, List.mem_cons_of_mem _ h2.2.2⟩

/-- Every classified controller is a classified row. -/
theorem classify_controllers_spec : ∀ (rows : List Row2) (acc : Classified),
    ∀ c ∈ (rows.foldl classifyStep acc).controllers,
      c ∈ acc.controllers ∨ c ∈ rows := by
  intro rows
  induction rows with
  | nil =>
    intro acc c hc
    exact Or.inl hc
  | cons r rest ih =>
    intro acc c hc
    simp only [List.foldl_cons] at hc
    unfold classifyStep at hc
    by_cases hs : (r.template == sensorTemplateName) = true
    · rw [if_pos hs] at hc
      rcases ih _ c hc with h1 | h2
      · exact Or.inl h1
      · exact Or.inr (List.mem_cons_of_mem _ h2)
    · rw [if_neg hs] at hc
      by_cases hct : (r.template == controllerTemplateName) = true
      · rw [if_pos hct] at hc
        rcases ih _ c hc with h1 | h2
        · rcases List.mem_append.mp h1 with h3 | h3
          · exact Or.inl h3
          · simp at h3
            subst h3
            exact Or.inr (List.mem_cons_self _ _)
        · exact Or.inr (List.mem_cons_of_mem _ h2)
      · rw [if_neg hct] at hc
        rcases ih _ c hc with h1 | h2
        · exact Or.inl h1
        · exact Or.inr (List.mem_cons_of_mem _ h2)

/-- Every classified regular asset is a classified row. -/
theorem classify_regular_spec : ∀ (rows : List Row2) (acc : Classified),
    ∀ c ∈ (rows.foldl classifyStep acc).regular,
      c ∈ acc.regular ∨ c ∈ rows := by
  intro rows
  induction rows with
  | nil =>
    intro acc c hc
    exact Or.inl hc
  | cons r rest ih =>
    intro acc c hc
    simp only [List.foldl_cons] at hc
    unfold classifyStep at hc
    by_cases hs : (r.template == sensorTemplateName) = true
    · rw [if_pos hs] at hc
      rcases ih _ c hc with h1 | h2
      · exact Or.inl h1
      · exact Or.inr (List.mem_cons_of_mem _ h2)
    · rw [if_neg hs] at hc
      by_cases hct : (r.template == controllerTemplateName) = true
      · rw [if_pos hct] at hc
        rcases ih _ c hc with h1 | h2
        · exact Or.inl h1
        · exact Or.inr (List.mem_cons_of_mem _ h2)
      · rw [if_neg hct] at hc
        rcases ih _ c hc with h1 | h2
        · rcases List.mem_append.mp h1 with h3 | h3
          · exact Or.inl h3
          · simp at h3
            subst h3
            exact Or.inr (List.mem_cons_self _ _)
        · exact Or.inr (List.mem_cons_of_mem _ h2)

/-- The Element row opens every per-asset emission. -/
theorem emitAsset_head (secStr level1 : String) (sensors : List (String × Row2))
    (scada : List (String × String)) (cls : AssetClass) (r : Row2) :
    addRow secStr (some (emitParentPath level1 sensors cls r)) r.pidAsset r.assetName
        r.template ∈ emitAsset secStr level1 sensors scada cls r := by
  unfold emitAsset
  by_cases hg : r.template ≠ "" ∧ pyStrip r.template ≠ ""
  · simp [hg]
  · simp [hg]

/-- One per-asset emission is fine once its Element parent is
established: the attribute row's parent is the Element row's own
path. -/
theorem parentsOk_emit_one (secStr level1 : String) (sensors : List (String × Row2))
    (scada : List (String × String)) (cls : AssetClass) (r : Row2) (done : List String)
    (h : emitParentPath level1 sensors cls r ∈ done) :
    parentsOk done (emitAsset secStr level1 sensors scada cls r) = true := by
  dsimp only [emitAsset]
  by_cases hg : r.template ≠ "" ∧ pyStrip r.template ≠ ""
  · rw [if_pos hg]
    simp only [parentsOk, addRow, addAttributeRow]
    rw [Bool.and_eq_true, Bool.and_eq_true]
    refine ⟨List.elem_iff.mpr h, ?_, rfl⟩
    exact List.elem_iff.mpr (List.mem_cons_self _ _)
  · rw [if_neg hg]
    simp only [parentsOk, addRow]
    rw [Bool.and_eq_true]
    exact ⟨List.elem_iff.mpr h, rfl⟩

/-- A whole emission section is fine when every item's Element parent
is established before the section starts. -/
theorem parentsOk_emit_section (secStr level1 : String) (sensors : List (String × Row2))
    (scada : List (String × String)) :
    ∀ (items : List (AssetClass × Row2)) (done : List String),
    (∀ pr ∈ items, emitParentPath level1 sensors pr.1 pr.2 ∈ done) →
    parentsOk done (items.flatMap
      (fun pr => emitAsset secStr level1 sensors scada pr.1 pr.2)) = true := by
  intro items
  induction items with
  | nil => intro done _; rfl
  | cons pr rest ih =>
    intro done h
    rw [List.flatMap_cons, parentsOk_append, Bool.and_eq_true]
    refine ⟨parentsOk_emit_one secStr level1 sensors scada pr.1 pr.2 done
      (h pr (List.mem_cons_self _ _)), ?_⟩
    apply ih
    intro q hq
    exact foldl_paths_superset _ _ _ (h q (List.mem_cons_of_mem _ hq))

/-- The path established by an Element row under a parent. -/
theorem rowPath_addRow (secStr P n d t : String) :
    rowPath (addRow secStr (some P) n d t) = P ++ "\\" ++ displayName n d := rfl

/-- The root row (no parent) establishes its own name as a path. -/
theorem parentsOk_root_cons (secStr n : String) (rest : List OutRow) (done : List String) :
    parentsOk done (addRow secStr none n "" "" :: rest) = parentsOk (n :: done) rest := by
  simp [parentsOk, addRow, rowPath, displayName]

/-- Sensors and regular assets always get the default level-based
parent. -/
theorem emitParentPath_not_controller (level1 : String) (sensors : List (String × Row2))
    (cls : AssetClass) (r : Row2) (h : cls ≠ AssetClass.controller) :
    emitParentPath level1 sensors cls r = defaultParentPath level1 r := by
  unfold emitParentPath
  rw [if_neg h]

/-- A controller whose marker scan finds nothing keeps the default
parent. -/
theorem emitParentPath_controller_nofind (level1 : String) (sensors : List (String × Row2))
    (r : Row2)
    (hf : find_corresponding_sensor ((sensors.map (fun p => p.1)).map String.data)
      r.pidAsset.data = none) :
    emitParentPath level1 sensors AssetClass.controller r = defaultParentPath level1 r := by
  unfold emitParentPath
  rw [if_pos rfl]
  simp only [hf]

/-- A controller whose found sensor name is not a sensor-bucket key
keeps the default parent. -/
theorem emitParentPath_controller_nodict (level1 : String) (sensors : List (String × Row2))
    (r : Row2) (s : List Char)
    (hf : find_corresponding_sensor ((sensors.map (fun p => p.1)).map String.data)
      r.pidAsset.data = some s)
    (hd : dictFind sensors (String.mk s) = none) :
    emitParentPath level1 sensors AssetClass.controller r = defaultParentPath level1 r := by
  unfold emitParentPath
  rw [if_pos rfl]
  simp only [hf, hd]

/-- A controller whose scan finds a bucketed sensor is re-parented
under that sensor's display name appended to the controller's own
default path. -/
theorem emitParentPath_controller_found (level1 : String) (sensors : List (String × Row2))
    (r : Row2) (s : List Char) (srow : Row2)
    (hf : find_corresponding_sensor ((sensors.map (fun p => p.1)).map String.data)
      r.pidAsset.data = some s)
    (hd : dictFind sensors (String.mk s) = some srow) :
    emitParentPath level1 sensors AssetClass.controller r =
      defaultParentPath level1 r ++ "\\" ++ displayName (String.mk s) srow.assetName := by
  unfold emitParentPath
  rw [if_pos rfl]
  simp only [hf, hd]

/-- C5 (amended): every row of the assembled output sequence either
has no parent or names a parent path established by an earlier row,
PROVIDED the surviving rows are trimmed (stripping their level values
changes nothing), every row that uses its Level 3 has a non-blank
Level 2, and every re-parented controller is colocated with its
matched sensor (same default level path). Without these provisos a
row can reference a parent path no earlier row established. -/
theorem parent_paths_established (secStr level1 : String) (rows : List Row2)
    (scada : List (String × String))
    (h0 : ∀ r ∈ rows, pyStrip r.level2 = r.level2 ∧ pyStrip r.level3 = r.level3)
    (h1 : ∀ r ∈ rows, r.level3 ≠ "" ∧ pyLower r.level3 ≠ "nan" ∧ pyStrip r.level3 ≠ "" →
      r.level2 ≠ "" ∧ pyLower r.level2 ≠ "nan")
    (h2 : ∀ c ∈ (classifyRows rows).controllers,
      controllerColocated level1 (classifyRows rows) c = true) :
    parentsOk [] (assembleRows secStr level1 rows scada) = true := by
  have hblank2 : ∀ r ∈ rows, r.level2 ≠ "" ∧ pyLower r.level2 ≠ "nan" →
      blankLevel r.level2 = false := by
    intro r hr hc
    unfold blankLevel
    rw [(h0 r hr).1]
    simp [hc.1, hc.2]
  have hFactA : ∀ (done : List String) (v : String),
      v ∈ dedupFirst (rows.map (fun r => r.level2)) → blankLevel v = false →
      level1 ++ "\\" ++ v ∈ (level2Rows secStr level1 rows).foldl
        (fun d r => rowPath r :: d) done := by
    intro done v hv hb
    have hq : addRow secStr (some level1) v "" "" ∈ level2Rows secStr level1 rows := by
      unfold level2Rows
      refine List.mem_map_of_mem _ (List.mem_filter.mpr ⟨hv, ?_⟩)
      show (!blankLevel v) = true
      rw [hb]
      rfl
    have hm := foldl_paths_mem (level2Rows secStr level1 rows) done _ hq
    rwa [rowPath_addRow, displayName_empty] at hm
  have hFactB : ∀ (done : List String) (r : Row2), r ∈ rows →
      r.level3 ≠ "" → pyLower r.level3 ≠ "nan" → pyStrip r.level3 ≠ "" →
      (level1 ++ "\\" ++ r.level2) ++ "\\" ++ r.level3 ∈
        (level3Rows secStr level1 rows).foldl (fun d r => rowPath r :: d) done := by
    intro done r hr h3a h3b h3c
    have hb3 : blankLevel r.level3 = false := by
      unfold blankLevel
      simp [h3b, h3c]
    have hbody : addRow secStr (some (level1 ++ "\\" ++ r.level2)) r.level3 "" "" ∈
        ((dedupFirst ((rows.filter (fun q => q.level2 == r.level2)).map
          (fun q => q.level3))).filter (fun v => !blankLevel v)).map
          (fun v => addRow secStr (some (level1 ++ "\\" ++ r.level2)) v "" "") := by
      refine List.mem_map_of_mem _ (List.mem_filter.mpr ⟨?_, ?_⟩)
      · exact (mem_dedupFirst _ _).mpr (List.mem_map.mpr
          ⟨r, List.mem_filter.mpr ⟨hr, by simp⟩, rfl⟩)
      · show (!blankLevel r.level3) = true
        rw [hb3]
        rfl
    have hq : addRow secStr (some (level1 ++ "\\" ++ r.level2)) r.level3 "" "" ∈
        level3Rows secStr level1 rows := by
      unfold level3Rows
      exact List.mem_flatMap.mpr ⟨r.level2,
        (sortStrings_perm _).mem_iff.mpr ((mem_dedupFirst _ _).mpr
          (List.mem_map.mpr ⟨r, hr, rfl⟩)), hbody⟩
    have hm := foldl_paths_mem (level3Rows secStr level1 rows) done _ hq
    rwa [rowPath_addRow, displayName_empty] at hm
  have hFactD : ∀ (done : List String) (r : Row2), r ∈ rows →
      defaultParentPath level1 r ∈
        (level3Rows secStr level1 rows).foldl (fun d r => rowPath r :: d)
          ((level2Rows secStr level1 rows).foldl (fun d r => rowPath r :: d)
            (level1 :: done)) := by
    intro done r hr
    by_cases hc3 : r.level3 ≠ "" ∧ pyLower r.level3 ≠ "nan" ∧ pyStrip r.level3 ≠ ""
    · have hc2 := h1 r hr hc3
      have hpath : defaultParentPath level1 r =
          (level1 ++ "\\" ++ r.level2) ++ "\\" ++ r.level3 := by
        simp only [defaultParentPath]
        rw [if_pos hc3, if_pos hc2]
      rw [hpath]
      exact hFactB _ r hr hc3.1 hc3.2.1 hc3.2.2
    · by_cases hc2 : r.level2 ≠ "" ∧ pyLower r.level2 ≠ "nan"
      · have hpath : defaultParentPath level1 r = level1 ++ "\\" ++ r.level2 := by
          simp only [defaultParentPath]
          rw [if_neg hc3, if_pos hc2]
        rw [hpath]
        apply foldl_paths_superset
        exact hFactA _ r.level2 ((mem_dedupFirst _ _).mpr (List.mem_map.mpr ⟨r, hr, rfl⟩))
          (hblank2 r hr hc2)
      · have hpath : defaultParentPath level1 r = level1 := by
          simp only [defaultParentPath]
          rw [if_neg hc3, if_neg hc2]
        rw [hpath]
        apply foldl_paths_superset
        apply foldl_paths_superset
        exact List.mem_cons_self _ _
  have hFactC : ∀ (done : List String) (p : String × Row2),
      p ∈ (classifyRows rows).sensors →
      defaultParentPath level1 p.2 ++ "\\" ++ displayName p.2.pidAsset p.2.assetName ∈
        (((classifyRows rows).sensors.map (fun q => (AssetClass.sensor, q.2))).flatMap
          (fun pr => emitAsset secStr level1 (classifyRows rows).sensors scada
            pr.1 pr.2)).foldl (fun d r => rowPath r :: d) done := by
    intro done p hp
    have hq : addRow secStr (some (emitParentPath level1 (classifyRows rows).sensors
        AssetClass.sensor p.2)) p.2.pidAsset p.2.assetName p.2.template ∈
        ((classifyRows rows).sensors.map (fun q => (AssetClass.sensor, q.2))).flatMap
          (fun pr => emitAsset secStr level1 (classifyRows rows).sensors scada
            pr.1 pr.2) :=
      List.mem_flatMap.mpr ⟨(AssetClass.sensor, p.2), List.mem_map_of_mem _ hp,
        emitAsset_head secStr level1 _ scada AssetClass.sensor p.2⟩
    have hm := foldl_paths_mem _ done _ hq
    rwa [rowPath_addRow, emitParentPath_not_controller _ _ _ _ (by decide)] at hm
  unfold assembleRows
  rw [parentsOk_root_cons, parentsOk_append, parentsOk_append, List.foldl_append,
    Bool.and_eq_true, Bool.and_eq_true]
  refine ⟨⟨?_, ?_⟩, ?_⟩
  · exact parentsOk_const_parent secStr level1 _ _ (List.mem_cons_self _ _)
  · apply parentsOk_groups secStr (fun l2 => level1 ++ "\\" ++ l2)
      (fun l2 => (dedupFirst ((rows.filter (fun q => q.level2 == l2)).map
        (fun q => q.level3))).filter (fun v => !blankLevel v))
    intro k hk
    by_cases hnil : (dedupFirst ((rows.filter (fun q => q.level2 == k)).map
        (fun q => q.level3))).filter (fun v => !blankLevel v) = []
    · exact Or.inl hnil
    · right
      obtain ⟨v, hv⟩ := List.exists_mem_of_ne_nil _ hnil
      obtain ⟨hvd, hvb⟩ := List.mem_filter.mp hv
      obtain ⟨r, hrg, hrv⟩ := List.mem_map.mp ((mem_dedupFirst _ _).mp hvd)
      obtain ⟨hrrows, hrl2⟩ := List.mem_filter.mp hrg
      have hkr : r.level2 = k := by
        have : (r.level2 == k) = true := hrl2
        exact beq_iff_eq.mp this
      have hbv : blankLevel v = false := by
        cases hb : blankLevel v
        · rfl
        · rw [hb] at hvb
          exact absurd hvb (by decide)
      have hps : pyStrip v ≠ "" ∧ pyLower v ≠ "nan" := by
        unfold blankLevel at hbv
        rcases Bool.or_eq_false_iff.mp hbv with ⟨ha, hb⟩
        constructor
        · intro he
          rw [he] at ha
          simp at ha
        · intro he
          rw [he] at hb
          simp at hb
      subst hrv
      have hne : r.level3 ≠ "" := by
        intro he
        apply hps.1
        rw [he]
        rfl
      have hc2 := h1 r hrrows ⟨hne, hps.2, hps.1⟩
      have hkd : k ∈ dedupFirst (rows.map (fun q => q.level2)) := by
        rw [mem_dedupFirst]
        exact List.mem_map.mpr ⟨r, hrrows, hkr⟩
      have hkb : blankLevel k = false := by
        rw [← hkr]
        exact hblank2 r hrrows hc2
      exact hFactA _ k hkd hkb
  · unfold assembleAssets
    rw [List.flatMap_append, List.flatMap_append, parentsOk_append, parentsOk_append,
      List.foldl_append, Bool.and_eq_true, Bool.and_eq_true]
    refine ⟨⟨?_, ?_⟩, ?_⟩
    · apply parentsOk_emit_section
      intro pr hpr
      rcases List.mem_map.mp hpr with ⟨p, hps, rfl⟩
      show emitParentPath level1 (classifyRows rows).sensors AssetClass.sensor p.2 ∈ _
      rw [emitParentPath_not_controller _ _ _ _ (by decide)]
      rcases classify_sensors_spec rows ⟨[], [], []⟩ p hps with hmem | hmem
      · cases hmem
      · exact hFactD [] p.2 hmem.2.2
    · apply parentsOk_emit_section
      intro pr hpr
      rcases List.mem_map.mp hpr with ⟨c, hcs, rfl⟩
      show emitParentPath level1 (classifyRows rows).sensors AssetClass.regular c ∈ _
      rw [emitParentPath_not_controller _ _ _ _ (by decide)]
      apply foldl_paths_superset
      rcases classify_regular_spec rows ⟨[], [], []⟩ c hcs with hmem | hmem
      · cases hmem
      · exact hFactD [] c hmem
    · apply parentsOk_emit_section
      intro pr hpr
      rcases List.mem_map.mp hpr with ⟨c, hcs, rfl⟩
      show emitParentPath level1 (classifyRows rows).sensors AssetClass.controller c ∈ _
      have hcrow : c ∈ rows := by
        rcases classify_controllers_spec rows ⟨[], [], []⟩ c hcs with hmem | hmem
        · cases hmem
        · exact hmem
      rcases hfind : find_corresponding_sensor
          (((classifyRows rows).sensors.map (fun p => p.1)).map String.data)
          c.pidAsset.data with _ | s
      · rw [emitParentPath_controller_nofind _ _ _ hfind]
        apply foldl_paths_superset
        apply foldl_paths_superset
        exact hFactD [] c hcrow
      · rcases hdict : dictFind (classifyRows rows).sensors (String.mk s) with _ | srow
        · rw [emitParentPath_controller_nodict _ _ _ _ hfind hdict]
          apply foldl_paths_superset
          apply foldl_paths_superset
          exact hFactD [] c hcrow
        · rw [emitParentPath_controller_found _ _ _ _ _ hfind hdict]
          have hcc := h2 c hcs
          unfold controllerColocated at hcc
          simp only [hfind, hdict] at hcc
          have heqp : defaultParentPath level1 srow = defaultParentPath level1 c :=
            beq_iff_eq.mp hcc
          have hsmem := dictFind_mem _ _ _ hdict
          rcases classify_sensors_spec rows ⟨[], [], []⟩ _ hsmem with hmem | hkey
          · cases hmem
          · have hkey1 : String.mk s = srow.pidAsset := hkey.1
            apply foldl_paths_superset
            rw [← heqp, hkey1]
            exact hFactC _ (String.mk s, srow) hsmem

/-- Witness for C5: a concrete two-row run (one sensor, one
colocated controller that is re-parented under it) satisfies the
provisos and the assembled sequence passes the parent check. -/
theorem parent_paths_established_witness :
    parentsOk [] (assembleRows "RO" "Root"
      [⟨"A", "Z", "LIT001", "", sensorTemplateName⟩,
       ⟨"A", "Z", "LIC001", "", controllerTemplateName⟩] []) = true :=
  parent_paths_established "RO" "Root" _ [] (by decide) (by decide) (by decide)

/-- Counterexample for C5 as written: (1) an untemplated run with a
blank Level 2 and a non-blank Level 3 emits rows whose parent paths
were never established; (2) a templated run where a controller's
matched sensor sits in a different level group re-parents the
controller under a path that no row establishes. -/
theorem parent_paths_counterexample :
    parentsOk [] (build_af_import "Root" "" [] [] [⟨"", "Z1", "P1", "", none⟩]) = false ∧
    parentsOk [] (build_af_import "Root" ""
      [(sensorTemplateName, ⟨"", [⟨"S", "s"⟩]⟩),
       (controllerTemplateName, ⟨"", [⟨"C", "c"⟩]⟩)]
      [("LIT001", ["s"]), ("LIC001", ["c"])]
      [⟨"A", "Z", "LIT001", "", none⟩, ⟨"B", "Y", "LIC001", "", none⟩]) = false := by
  constructor
  · decide
  · have h1 : get_all_attributes
        [(sensorTemplateName, ⟨"", [⟨"S", "s"⟩]⟩),
         (controllerTemplateName, ⟨"", [⟨"C", "c"⟩]⟩)]
        [] sensorTemplateName = [⟨"S", "s"⟩] := by
      rw [get_all_attributes]
      decide
    have h2 : get_all_attributes
        [(sensorTemplateName, ⟨"", [⟨"S", "s"⟩]⟩),
         (controllerTemplateName, ⟨"", [⟨"C", "c"⟩]⟩)]
        [] controllerTemplateName = [⟨"C", "c"⟩] := by
      rw [get_all_attributes]
      decide
    rw [build_af_import, load_af_templates]
    simp only [List.map, h1, h2]
    decide
